import Mathlib

/-!
Verification development for the LABA_Orari schedule-extraction pipeline.

The Python sources (`extract_pdf_schedules.py`, `fix_timezone.py`) are shallowly
embedded below.  Strings are modelled as `List Char` (ASCII fragment of Python
`str`); `None`-able values as `Option`; the regular expressions of the source
are translated into explicit leftmost-search scanners with the same
greedy/backtracking behaviour on the inputs of interest.
-/

/-- Strings of the embedding: Python `str` values, as lists of characters. -/
abbrev Str := List Char

/-- Coercion from a Lean string literal to the embedding's string type. -/
def str (s : String) : Str := s.data

/-- Python `str.lower()` (ASCII fragment). -/
def lowerS (s : Str) : Str := s.map Char.toLower

/-- Python `str.upper()` (ASCII fragment). -/
def upperS (s : Str) : Str := s.map Char.toUpper

/-- Whitespace test used by Python `str.strip()` and the regex class `\s`. -/
def isWS (c : Char) : Bool := c.isWhitespace

/-- Python `str.strip()`: drop leading and trailing whitespace. -/
def stripS (s : Str) : Str :=
  ((s.dropWhile isWS).reverse.dropWhile isWS).reverse

/-- Substring containment, Python's `needle in hay`. -/
def containsSub (hay needle : Str) : Bool :=
  match hay with
  | [] => needle.isEmpty
  | _ :: t => needle.isPrefixOf hay || containsSub t needle

/-- Value of a decimal digit character. -/
def digitVal (c : Char) : Nat := c.toNat - '0'.toNat

/-- Decimal value of a digit string (most significant first). -/
def strVal (l : Str) : Nat := l.foldl (fun a c => 10 * a + digitVal c) 0

/-! ## Time-range parser (`parse_time`, extract_pdf_schedules.py lines 30-56)

The source searches, in order, the regexes
`(\d{1,2})\.(\d{2})\s*-\s*(\d{1,2})\.(\d{2})` and
`(\d{1,2}):(\d{2})\s*-\s*(\d{1,2}):(\d{2})` on the input with all blanks
removed, and accepts the first structural match whose components pass the
range check.  The scanners below reproduce the leftmost search with greedy
one-or-two-digit hour groups and their backtracking. -/

/-- Regex fragment `(\d{2})`: exactly two digits, returning value and rest. -/
def take2 : Str → Option (Nat × Str)
  | a :: b :: r =>
    if a.isDigit && b.isDigit then some (10 * digitVal a + digitVal b, r) else none
  | _ => none

/-- Regex fragment `sep(\d{2})` (final minutes group). -/
def matchSepMin (sep : Char) : Str → Option Nat
  | c :: r => if c = sep then (take2 r).map (·.1) else none
  | [] => none

/-- Regex fragment `(\d{1,2})sep(\d{2})` with the greedy two-digit hour tried
first and backtracking to one digit. -/
def matchHourSepMin (sep : Char) : Str → Option (Nat × Nat)
  | a :: r =>
    if a.isDigit then
      match r with
      | b :: r2 =>
        if b.isDigit then
          match matchSepMin sep r2 with
          | some m => some (10 * digitVal a + digitVal b, m)
          | none => (matchSepMin sep r).map (fun m => (digitVal a, m))
        else (matchSepMin sep r).map (fun m => (digitVal a, m))
      | [] => none
    else none
  | [] => none

/-- Regex fragment `\s*-\s*`. -/
def matchDash (s : Str) : Option Str :=
  match s.dropWhile isWS with
  | c :: r => if c = '-' then some (r.dropWhile isWS) else none
  | [] => none

/-- Tail of the time-range pattern after the first hour group:
`sep(\d{2})\s*-\s*(\d{1,2})sep(\d{2})`. -/
def afterH1 (sep : Char) (h1 : Nat) (s : Str) : Option (Nat × Nat × Nat × Nat) :=
  match s with
  | c :: r =>
    if c = sep then
      match take2 r with
      | some (m1, r2) =>
        match matchDash r2 with
        | some r3 => (matchHourSepMin sep r3).map (fun p => (h1, m1, p.1, p.2))
        | none => none
      | none => none
    else none
  | [] => none

/-- Attempted match of the full time-range pattern at one position, with the
greedy first hour group and its backtracking. -/
def patAt (sep : Char) : Str → Option (Nat × Nat × Nat × Nat)
  | a :: r =>
    if a.isDigit then
      match r with
      | b :: r2 =>
        if b.isDigit then
          match afterH1 sep (10 * digitVal a + digitVal b) r2 with
          | some q => some q
          | none => afterH1 sep (digitVal a) r
        else afterH1 sep (digitVal a) r
      | [] => none
    else none
  | [] => none

/-- Leftmost regex search (`re.search`) of the time-range pattern. -/
def searchPat (sep : Char) : Str → Option (Nat × Nat × Nat × Nat)
  | [] => none
  | c :: r =>
    match patAt sep (c :: r) with
    | some q => some q
    | none => searchPat sep r

/-- Range validation of the four matched components (source line 53). -/
def validQuad : Nat × Nat × Nat × Nat → Bool
  | (h1, m1, h2, m2) => h1 ≤ 23 && m1 ≤ 59 && h2 ≤ 23 && m2 ≤ 59

/-- One iteration of the source's pattern loop: search one pattern, return its
match only when the components validate. -/
def tryPattern (sep : Char) (t : Str) : Option (Nat × Nat × Nat × Nat) :=
  match searchPat sep t with
  | some q => if validQuad q then some q else none
  | none => none

/-- `parse_time` (extract_pdf_schedules.py lines 30-56): strip the input,
remove every blank, then try the dot pattern and the colon pattern in order. -/
def parse_time (s : Str) : Option (Nat × Nat × Nat × Nat) :=
  if s = [] then none
  else
    let t := (stripS s).filter (fun c => c ≠ ' ')
    match tryPattern '.' t with
    | some q => some q
    | none => tryPattern ':' t

example : parse_time (str "09:00-11:00") = some (9, 0, 11, 0) := by decide
example : parse_time (str "9.00-11.00") = some (9, 0, 11, 0) := by decide
example : parse_time (str "14.00 - 18.00") = some (14, 0, 18, 0) := by decide
example : parse_time (str "24.00-11.00") = none := by decide
example : parse_time (str "9.60-11.00") = none := by decide
example : parse_time (str "hello") = none := by decide
example : parse_time (str "18.00-14.00") = some (18, 0, 14, 0) := by decide

/-! ### Lemmas about `parse_time` on well-formed time-range strings -/

/-- Hour group shapes accepted by the claim: one or two decimal digits. -/
def HourStr (l : Str) : Prop := (l.length = 1 ∨ l.length = 2) ∧ ∀ c ∈ l, c.isDigit = true

/-- Minute group shapes accepted by the claim: exactly two decimal digits. -/
def MinStr (l : Str) : Prop := l.length = 2 ∧ ∀ c ∈ l, c.isDigit = true

theorem isWS_eq_false_of_isDigit (c : Char) (h : c.isDigit = true) : isWS c = false := by
  unfold isWS
  by_contra hc
  simp only [Bool.not_eq_false] at hc
  simp only [Char.isWhitespace, Bool.or_eq_true, decide_eq_true_eq] at hc
  rcases hc with ((h' | h') | h') | h' <;> subst h' <;> exact absurd h (by decide)

theorem ne_of_isDigit (c k : Char) (h : c.isDigit = true) (hk : k.isDigit = false) :
    c ≠ k := by
  intro e; subst e; rw [h] at hk; cases hk

theorem dropWhile_isWS_eq_self (l : Str) (h : ∀ c ∈ l, isWS c = false) :
    l.dropWhile isWS = l := by
  cases l with
  | nil => rfl
  | cons a t => simp [List.dropWhile_cons, h a (by simp)]

theorem stripS_eq_self (s : Str) (h : ∀ c ∈ s, isWS c = false) : stripS s = s := by
  unfold stripS
  rw [dropWhile_isWS_eq_self s h,
    dropWhile_isWS_eq_self s.reverse (by intro c hc; exact h c (List.mem_reverse.mp hc)),
    List.reverse_reverse]

theorem strVal_one (a : Char) : strVal [a] = digitVal a := by
  simp [strVal]

theorem strVal_two (a b : Char) : strVal [a, b] = 10 * digitVal a + digitVal b := by
  simp [strVal]

theorem matchSepMin_shape (sep u v : Char) (hu : u.isDigit = true) (hv : v.isDigit = true) :
    matchSepMin sep (sep :: u :: v :: []) = some (10 * digitVal u + digitVal v) := by
  simp [matchSepMin, take2, hu, hv]

theorem matchHourSepMin_one (sep c u v : Char) (hsd : sep.isDigit = false)
    (hc : c.isDigit = true) (hu : u.isDigit = true) (hv : v.isDigit = true) :
    matchHourSepMin sep (c :: sep :: u :: v :: []) =
      some (digitVal c, 10 * digitVal u + digitVal v) := by
  simp [matchHourSepMin, hc, hsd, matchSepMin_shape sep u v hu hv]

theorem matchHourSepMin_two (sep c d u v : Char)
    (hc : c.isDigit = true) (hd : d.isDigit = true)
    (hu : u.isDigit = true) (hv : v.isDigit = true) :
    matchHourSepMin sep (c :: d :: sep :: u :: v :: []) =
      some (10 * digitVal c + digitVal d, 10 * digitVal u + digitVal v) := by
  simp [matchHourSepMin, hc, hd, matchSepMin_shape sep u v hu hv]

theorem matchDash_cons (t : Str) : matchDash ('-' :: t) = some (t.dropWhile isWS) := by
  simp [matchDash, List.dropWhile_cons, show isWS '-' = false by decide]

theorem afterH1_shape (sep x y : Char) (h1 : Nat) (t : Str)
    (hx : x.isDigit = true) (hy : y.isDigit = true) :
    afterH1 sep h1 (sep :: x :: y :: '-' :: t) =
      (matchHourSepMin sep (t.dropWhile isWS)).map
        (fun p => (h1, 10 * digitVal x + digitVal y, p.1, p.2)) := by
  simp [afterH1, take2, hx, hy, matchDash_cons]

theorem dropWhile_isWS_cons_digit (c : Char) (t : Str) (hc : c.isDigit = true) :
    (c :: t).dropWhile isWS = c :: t := by
  simp [List.dropWhile_cons, isWS_eq_false_of_isDigit c hc]

theorem matchHourSepMin_hourShape (sep : Char) (hsd : sep.isDigit = false)
    (h2s m2s : Str) (H2 : HourStr h2s) (M2 : MinStr m2s) :
    matchHourSepMin sep (h2s ++ sep :: m2s) = some (strVal h2s, strVal m2s) := by
  obtain ⟨hlen2, hdig2⟩ := H2
  obtain ⟨mlen2, mdig2⟩ := M2
  match m2s, mlen2 with
  | u :: v :: [], _ =>
    have hu : u.isDigit = true := mdig2 u (by simp)
    have hv : v.isDigit = true := mdig2 v (by simp)
    match h2s, hlen2 with
    | c :: [], _ =>
      have hc : c.isDigit = true := hdig2 c (by simp)
      rw [show (c :: [] : Str) ++ sep :: u :: v :: [] = c :: sep :: u :: v :: [] by rfl]
      rw [matchHourSepMin_one sep c u v hsd hc hu hv, strVal_one, strVal_two]
    | c :: d :: [], _ =>
      have hc : c.isDigit = true := hdig2 c (by simp)
      have hd : d.isDigit = true := hdig2 d (by simp)
      rw [show (c :: d :: [] : Str) ++ sep :: u :: v :: [] = c :: d :: sep :: u :: v :: []
        by rfl]
      rw [matchHourSepMin_two sep c d u v hc hd hu hv, strVal_two, strVal_two]

theorem searchPat_shape (sep : Char) (hsd : sep.isDigit = false)
    (h1s m1s h2s m2s : Str)
    (H1 : HourStr h1s) (M1 : MinStr m1s) (H2 : HourStr h2s) (M2 : MinStr m2s) :
    searchPat sep (h1s ++ sep :: (m1s ++ '-' :: (h2s ++ sep :: m2s))) =
      some (strVal h1s, strVal m1s, strVal h2s, strVal m2s) := by
  obtain ⟨hlen1, hdig1⟩ := H1
  obtain ⟨mlen1, mdig1⟩ := M1
  have hh2 : ∃ c t, h2s = c :: t ∧ c.isDigit = true := by
    obtain ⟨hlen2, hdig2⟩ := H2
    match h2s, hlen2 with
    | c :: t, _ => exact ⟨c, t, rfl, hdig2 c (by simp)⟩
  obtain ⟨c0, t0, hct, hc0⟩ := hh2
  have hMH : matchHourSepMin sep ((h2s ++ sep :: m2s).dropWhile isWS)
      = some (strVal h2s, strVal m2s) := by
    rw [hct, List.cons_append, dropWhile_isWS_cons_digit c0 _ hc0, ← List.cons_append, ← hct]
    exact matchHourSepMin_hourShape sep hsd h2s m2s H2 M2
  match m1s, mlen1 with
  | x :: y :: [], _ =>
    have hx : x.isDigit = true := mdig1 x (by simp)
    have hy : y.isDigit = true := mdig1 y (by simp)
    have hAfter : ∀ h1 : Nat,
        afterH1 sep h1 (sep :: ((x :: y :: []) ++ '-' :: (h2s ++ sep :: m2s)))
          = some (h1, strVal [x, y], strVal h2s, strVal m2s) := by
      intro h1
      rw [show (sep :: ((x :: y :: []) ++ '-' :: (h2s ++ sep :: m2s)) : Str)
            = sep :: x :: y :: '-' :: (h2s ++ sep :: m2s) by rfl]
      rw [afterH1_shape sep x y h1 _ hx hy, hMH, strVal_two]
      rfl
    match h1s, hlen1 with
    | a :: [], _ =>
      have ha : a.isDigit = true := hdig1 a (by simp)
      rw [show ((a :: [] : Str) ++ sep :: ((x :: y :: []) ++ '-' :: (h2s ++ sep :: m2s)))
            = a :: sep :: ((x :: y :: []) ++ '-' :: (h2s ++ sep :: m2s)) by rfl]
      rw [searchPat, patAt]
      simp only [ha, if_true, hsd, if_false, Bool.false_eq_true]
      rw [hAfter (digitVal a), strVal_one a]
    | a :: b :: [], _ =>
      have ha : a.isDigit = true := hdig1 a (by simp)
      have hb : b.isDigit = true := hdig1 b (by simp)
      rw [show ((a :: b :: [] : Str) ++ sep :: ((x :: y :: []) ++ '-' :: (h2s ++ sep :: m2s)))
            = a :: b :: sep :: ((x :: y :: []) ++ '-' :: (h2s ++ sep :: m2s)) by rfl]
      rw [searchPat, patAt]
      simp only [ha, hb, if_true]
      rw [hAfter (10 * digitVal a + digitVal b), strVal_two a b]

theorem afterH1_none (sep : Char) (h1 : Nat) (s : Str) (h : ∀ c ∈ s, c ≠ sep) :
    afterH1 sep h1 s = none := by
  cases s with
  | nil => rfl
  | cons c r => simp [afterH1, h c (by simp)]

theorem patAt_none (sep : Char) (s : Str) (h : ∀ c ∈ s, c ≠ sep) :
    patAt sep s = none := by
  cases s with
  | nil => rfl
  | cons a r =>
    cases r with
    | nil => simp [patAt]
    | cons b r2 =>
      have hr2 : ∀ c ∈ r2, c ≠ sep := fun c hc => h c (by simp [hc])
      have hbr2 : ∀ c ∈ b :: r2, c ≠ sep := fun c hc => h c (by simp at hc ⊢; tauto)
      simp [patAt, afterH1_none sep _ r2 hr2, afterH1_none sep _ (b :: r2) hbr2]

theorem searchPat_none (sep : Char) (s : Str) (h : ∀ c ∈ s, c ≠ sep) :
    searchPat sep s = none := by
  induction s with
  | nil => rfl
  | cons c r ih =>
    rw [searchPat, patAt_none sep (c :: r) h]
    exact ih (fun x hx => h x (by simp [hx]))

/-- C2: on every well-formed `H.MM-H.MM` / `H:MM-H:MM` line the Time-range
Parser returns exactly the four components when they are all in range, and no
match when any hour exceeds 23 or any minute exceeds 59; on every input it
returns normally (some result or no match). -/
theorem C2_time_range_spec :
    (∀ sep : Char, sep = '.' ∨ sep = ':' →
      ∀ h1s m1s h2s m2s : Str, HourStr h1s → MinStr m1s → HourStr h2s → MinStr m2s →
      parse_time (h1s ++ sep :: (m1s ++ '-' :: (h2s ++ sep :: m2s))) =
        (if strVal h1s ≤ 23 ∧ strVal m1s ≤ 59 ∧ strVal h2s ≤ 23 ∧ strVal m2s ≤ 59
         then some (strVal h1s, strVal m1s, strVal h2s, strVal m2s) else none)) ∧
    (∀ s : Str, parse_time s = none ∨ ∃ q, parse_time s = some q) := by
  constructor
  · intro sep hsep h1s m1s h2s m2s H1 M1 H2 M2
    set s : Str := h1s ++ sep :: (m1s ++ '-' :: (h2s ++ sep :: m2s)) with hs
    have hmem : ∀ c ∈ s, c.isDigit = true ∨ c = sep ∨ c = '-' := by
      intro c hc
      rw [hs] at hc
      rcases List.mem_append.mp hc with h | h
      · exact Or.inl (H1.2 c h)
      · rcases List.mem_cons.mp h with rfl | h
        · exact Or.inr (Or.inl rfl)
        · rcases List.mem_append.mp h with h | h
          · exact Or.inl (M1.2 c h)
          · rcases List.mem_cons.mp h with rfl | h
            · exact Or.inr (Or.inr rfl)
            · rcases List.mem_append.mp h with h | h
              · exact Or.inl (H2.2 c h)
              · rcases List.mem_cons.mp h with rfl | h
                · exact Or.inr (Or.inl rfl)
                · exact Or.inl (M2.2 c h)
    have hsepws : isWS sep = false := by rcases hsep with rfl | rfl <;> decide
    have hws : ∀ c ∈ s, isWS c = false := by
      intro c hc
      rcases hmem c hc with h | h | h
      · exact isWS_eq_false_of_isDigit c h
      · subst h; exact hsepws
      · subst h; decide
    have hnospace : ∀ c ∈ s, c ≠ ' ' := by
      intro c hc
      rcases hmem c hc with h | h | h
      · exact ne_of_isDigit c ' ' h (by decide)
      · subst h; rcases hsep with rfl | rfl <;> decide
      · subst h; decide
    have hne : ¬(s = []) := by
      intro he
      rw [hs] at he
      rcases List.append_eq_nil.mp he with ⟨he1, _⟩
      rcases H1.1 with h | h <;> rw [he1] at h <;> simp at h
    have ht : (stripS s).filter (fun c => c ≠ ' ') = s := by
      rw [stripS_eq_self s hws]
      rw [List.filter_eq_self]
      intro a ha
      simpa using hnospace a ha
    have hq := searchPat_shape sep (by rcases hsep with rfl | rfl <;> decide)
      h1s m1s h2s m2s H1 M1 H2 M2
    by_cases hv : strVal h1s ≤ 23 ∧ strVal m1s ≤ 59 ∧ strVal h2s ≤ 23 ∧ strVal m2s ≤ 59
    · have hvq : validQuad (strVal h1s, strVal m1s, strVal h2s, strVal m2s) = true := by
        simp only [validQuad, Bool.and_eq_true, decide_eq_true_eq]
        exact ⟨⟨⟨hv.1, hv.2.1⟩, hv.2.2.1⟩, hv.2.2.2⟩
      rcases hsep with rfl | rfl
      · simp only [parse_time, if_neg hne, ht, tryPattern, hq, hvq, if_true, if_pos hv]
      · have hnodot : searchPat '.' s = none := by
          apply searchPat_none
          intro c hc
          rcases hmem c hc with h | h | h
          · exact ne_of_isDigit c '.' h (by decide)
          · subst h; decide
          · subst h; decide
        simp only [parse_time, if_neg hne, ht, tryPattern, hnodot, hq, hvq, if_true,
          if_pos hv]
    · have hvq : validQuad (strVal h1s, strVal m1s, strVal h2s, strVal m2s) = false := by
        cases hq' : validQuad (strVal h1s, strVal m1s, strVal h2s, strVal m2s) with
        | false => rfl
        | true =>
          exfalso
          apply hv
          simp only [validQuad, Bool.and_eq_true, decide_eq_true_eq] at hq'
          exact ⟨hq'.1.1.1, hq'.1.1.2, hq'.1.2, hq'.2⟩
      rcases hsep with rfl | rfl
      · have hnocolon : searchPat ':' s = none := by
          apply searchPat_none
          intro c hc
          rcases hmem c hc with h | h | h
          · exact ne_of_isDigit c ':' h (by decide)
          · subst h; decide
          · subst h; decide
        simp only [parse_time, if_neg hne, ht, tryPattern, hq, hvq, Bool.false_eq_true,
          if_false, hnocolon, if_neg hv]
      · have hnodot : searchPat '.' s = none := by
          apply searchPat_none
          intro c hc
          rcases hmem c hc with h | h | h
          · exact ne_of_isDigit c '.' h (by decide)
          · subst h; decide
          · subst h; decide
        simp only [parse_time, if_neg hne, ht, tryPattern, hnodot, hq, hvq,
          Bool.false_eq_true, if_false, if_neg hv]
  · intro s
    cases h : parse_time s with
    | none => exact Or.inl rfl
    | some q => exact Or.inr ⟨q, rfl⟩

/-- Witness for C2 at a concrete input: the dot-separated line `14.00-18.00`
parses to exactly (14,0,18,0). -/
theorem C2_time_range_spec_witness :
    HourStr ['1', '4'] ∧
    parse_time (['1', '4'] ++ '.' :: (['0', '0'] ++ '-' :: (['1', '8'] ++ '.' :: ['0', '0'])))
      = some (14, 0, 18, 0) := by
  refine ⟨⟨Or.inr rfl, by decide⟩, ?_⟩
  have h := C2_time_range_spec.1 '.' (Or.inl rfl) ['1', '4'] ['0', '0'] ['1', '8'] ['0', '0']
    ⟨Or.inr rfl, by decide⟩ ⟨rfl, by decide⟩ ⟨Or.inr rfl, by decide⟩ ⟨rfl, by decide⟩
  rw [h]
  decide

/-! ## Group extractor (`extract_group_from_text`, lines 95-117)

The source tries four regexes in order — `[Gg]ruppo\s*([A-Z])`, `[Gg]r\.\s*([A-Z])`,
`\b([A-Z])\s*[Gg]ruppo`, `^([A-Z])\s*[-:]` — and returns the first pattern whose
(leftmost) match captures a letter in `{A,B,C,Y,Z}`; a pattern matching a letter
outside the set falls through to the next pattern.  The captured `[A-Z]` letter
is already upper case, so the source's `.upper()` is the identity. -/

/-- Upper-case ASCII letter test, the regex class `[A-Z]`. -/
def upperAZ (c : Char) : Bool := 'A' ≤ c && c ≤ 'Z'

/-- Word-character test used for the regex `\b` boundary (class `[A-Za-z0-9_]`). -/
def isWordChar (c : Char) : Bool := c.isAlpha || c.isDigit || c = '_'

/-- Generic leftmost search: try the positional matcher on every suffix. -/
def searchWith (m : Str → Option Char) : Str → Option Char
  | [] => none
  | c :: r =>
    match m (c :: r) with
    | some x => some x
    | none => searchWith m r

/-- Positional matcher for `[Gg]ruppo\s*([A-Z])`. -/
def gruppoAt : Str → Option Char
  | c :: r =>
    if (c = 'G' || c = 'g') && (str "ruppo").isPrefixOf r then
      match (r.drop 5).dropWhile isWS with
      | x :: _ => if upperAZ x then some x else none
      | [] => none
    else none
  | [] => none

/-- Positional matcher for `[Gg]r\.\s*([A-Z])`. -/
def grDotAt : Str → Option Char
  | c :: r =>
    if (c = 'G' || c = 'g') && (str "r.").isPrefixOf r then
      match (r.drop 2).dropWhile isWS with
      | x :: _ => if upperAZ x then some x else none
      | [] => none
    else none
  | [] => none

/-- Positional matcher for `([A-Z])\s*[Gg]ruppo` (boundary handled by caller). -/
def capGruppoAt : Str → Option Char
  | x :: r =>
    if upperAZ x then
      match r.dropWhile isWS with
      | g :: r2 =>
        if (g = 'G' || g = 'g') && (str "ruppo").isPrefixOf r2 then some x else none
      | [] => none
    else none
  | [] => none

/-- Search of `\b([A-Z])\s*[Gg]ruppo`: the scan carries whether the previous
character is a word character, so `\b` holds exactly when it is not. -/
def searchBoundGruppo (prevWord : Bool) : Str → Option Char
  | [] => none
  | c :: r =>
    match (if prevWord then none else capGruppoAt (c :: r)) with
    | some x => some x
    | none => searchBoundGruppo (isWordChar c) r

/-- Anchored matcher for `^([A-Z])\s*[-:]`. -/
def capDashAt : Str → Option Char
  | x :: r =>
    if upperAZ x then
      match r.dropWhile isWS with
      | c :: _ => if c = '-' || c = ':' then some x else none
      | [] => none
    else none
  | [] => none

/-- The allowed group letters (source line 114). -/
def allowedGroup (c : Char) : Bool := c = 'A' || c = 'B' || c = 'C' || c = 'Y' || c = 'Z'

/-- One iteration of the source's pattern loop: if this pattern matched and the
letter is allowed return it, otherwise fall through to the next pattern. -/
def groupStep (r : Option Char) (k : Option Char) : Option Char :=
  match r with
  | some c => if allowedGroup c then some c else k
  | none => k

/-- `extract_group_from_text` (extract_pdf_schedules.py lines 95-117). -/
def extract_group_from_text (s : Str) : Option Char :=
  if s = [] then none
  else
    groupStep (searchWith gruppoAt s)
      (groupStep (searchWith grDotAt s)
        (groupStep (searchBoundGruppo false s)
          (groupStep (capDashAt s) none)))

example : extract_group_from_text (str "Gruppo C") = some 'C' := by decide
example : extract_group_from_text (str "gr. B") = some 'B' := by decide
example : extract_group_from_text (str "A - something") = some 'A' := by decide
example : extract_group_from_text (str "Z Gruppo") = some 'Z' := by decide
example : extract_group_from_text (str "Gruppo D") = none := by decide
example : extract_group_from_text (str "Savia") = none := by decide
example : extract_group_from_text (str "Graphic Design 2") = none := by decide

/-! ## Instructor-line cleaning (`parse_cell_content` lines 184-233)

The source applies a chain of `re.sub(..., '', line)` with patterns
`.*?Prof\.?\s*ssa\s+`, `.*?Prof\.ssa\s+`, `.*?Prof\s+ssa\s+`, `.*?Prof\.\s+`,
`.*?Prof\s+` (case-insensitive, all occurrences), then `^ssa\s+`, `^ssa/`,
`\([^)]*\)`, `\s+`→`' '`, each followed by `.strip()`.  A lazy-prefix
substitution `.*?CORE` repeatedly deletes everything up to and including the
leftmost occurrence of `CORE` and rescans the remainder; the fuel arguments
below are bounded by the string length, which suffices because every core
match consumes at least one character. -/

/-- Case-insensitive prefix test (the pattern is given lower case). -/
def ciPrefixOf (pat s : Str) : Bool := pat.isPrefixOf (lowerS s)

/-- Regex fragment `\s*ssa\s+` (case-insensitive), returning the rest after
the greedy trailing whitespace. -/
def ssaWsTail (r : Str) : Option Str :=
  let r1 := r.dropWhile isWS
  if ciPrefixOf (str "ssa") r1 then
    match r1.drop 3 with
    | c :: rest => if isWS c then some (rest.dropWhile isWS) else none
    | [] => none
  else none

/-- Core of `.*?Prof\.?\s*ssa\s+`: the optional dot is greedy, backtracking to
the empty alternative when the tail fails. -/
def coreProfOptDotSsa (s : Str) : Option Str :=
  if ciPrefixOf (str "prof") s then
    let r := s.drop 4
    match r with
    | '.' :: r2 =>
      match ssaWsTail r2 with
      | some rest => some rest
      | none => ssaWsTail r
    | _ => ssaWsTail r
  else none

/-- Core of `.*?Prof\.ssa\s+`. -/
def coreProfDotSsa (s : Str) : Option Str :=
  if ciPrefixOf (str "prof.ssa") s then
    match s.drop 8 with
    | c :: rest => if isWS c then some (rest.dropWhile isWS) else none
    | [] => none
  else none

/-- Core of `.*?Prof\s+ssa\s+`. -/
def coreProfWsSsa (s : Str) : Option Str :=
  if ciPrefixOf (str "prof") s then
    match s.drop 4 with
    | c :: rest =>
      if isWS c then
        let r1 := rest.dropWhile isWS
        if ciPrefixOf (str "ssa") r1 then
          match r1.drop 3 with
          | d :: rest2 => if isWS d then some (rest2.dropWhile isWS) else none
          | [] => none
        else none
      else none
    | [] => none
  else none

/-- Core of `.*?Prof\.\s+`. -/
def coreProfDot (s : Str) : Option Str :=
  if ciPrefixOf (str "prof.") s then
    match s.drop 5 with
    | c :: rest => if isWS c then some (rest.dropWhile isWS) else none
    | [] => none
  else none

/-- Core of `.*?Prof\s+`. -/
def coreProfWs (s : Str) : Option Str :=
  if ciPrefixOf (str "prof") s then
    match s.drop 4 with
    | c :: rest => if isWS c then some (rest.dropWhile isWS) else none
    | [] => none
  else none

/-- Leftmost position at which a core matches, returning the remainder after
the match.  (All cores start with the literal `Prof`, so the empty suffix can
never match and is omitted from the scan.) -/
def findCore (core : Str → Option Str) : Str → Option Str
  | [] => none
  | c :: t =>
    match core (c :: t) with
    | some r => some r
    | none => findCore core t

/-- `re.sub('.*?CORE', '', s)`: repeatedly delete up to and past the leftmost
core occurrence, rescanning the remainder. -/
def subAll (core : Str → Option Str) : Nat → Str → Str
  | 0, s => s
  | fuel + 1, s =>
    match findCore core s with
    | some rest => subAll core fuel rest
    | none => s

/-- Run one lazy-prefix substitution with sufficient fuel. -/
def runSub (core : Str → Option Str) (s : Str) : Str := subAll core s.length s

/-- `re.sub('^ssa\s+', '', s)` (case-insensitive, anchored). -/
def subSsaWs (s : Str) : Str :=
  if ciPrefixOf (str "ssa") s then
    match s.drop 3 with
    | c :: rest => if isWS c then rest.dropWhile isWS else s
    | [] => s
  else s

/-- `re.sub('^ssa/', '', s)` (case-insensitive, anchored). -/
def subSsaSlash (s : Str) : Str :=
  if ciPrefixOf (str "ssa/") s then s.drop 4 else s

/-- Suffix after the first closing parenthesis, when present. -/
def splitAtClose : Str → Option Str
  | [] => none
  | ')' :: r => some r
  | _ :: r => splitAtClose r

/-- `re.sub('\([^)]*\)', '', s)`: delete every parenthesised run without a
nested closing parenthesis; an unclosed `(` is kept. -/
def removeParensAux : Nat → Str → Str
  | 0, s => s
  | fuel + 1, s =>
    match s with
    | [] => []
    | '(' :: r =>
      match splitAtClose r with
      | some rest => removeParensAux fuel rest
      | none => '(' :: removeParensAux fuel r
    | c :: r => c :: removeParensAux fuel r

/-- Run the parenthesis removal with sufficient fuel. -/
def removeParens (s : Str) : Str := removeParensAux s.length s

/-- `re.sub('\s+', ' ', s)`: collapse every whitespace run to one blank. -/
def collapseWSAux : Nat → Str → Str
  | 0, s => s
  | fuel + 1, s =>
    match s with
    | [] => []
    | c :: r =>
      if isWS c then ' ' :: collapseWSAux fuel (r.dropWhile isWS)
      else c :: collapseWSAux fuel r

/-- Run the whitespace collapse with sufficient fuel. -/
def collapseWS (s : Str) : Str := collapseWSAux s.length s

/-- The full title-stripping chain of `parse_cell_content` (lines 187-206):
each substitution is followed by `.strip()` exactly as in the source. -/
def clean_docente (line : Str) : Str :=
  let d := stripS line
  let d := stripS (runSub coreProfOptDotSsa d)
  let d := stripS (runSub coreProfDotSsa d)
  let d := stripS (runSub coreProfWsSsa d)
  let d := stripS (runSub coreProfDot d)
  let d := stripS (runSub coreProfWs d)
  let d := stripS (subSsaWs d)
  let d := stripS (subSsaSlash d)
  let d := stripS (removeParens d)
  let d := stripS (collapseWS d)
  d

example : clean_docente (str "Prof.ssa Crescioli") = str "Crescioli" := by decide
example : clean_docente (str "Prof. Al") = str "Al" := by decide
example : clean_docente (str "Prof.ssa") = str "Prof.ssa" := by decide
example : clean_docente (str "Prof. ssa Rossi (nota)") = str "Rossi" := by decide
example : clean_docente (str "Prof Bianchi") = str "Bianchi" := by decide

/-! ## Cell Lexer (`parse_cell_content`, extract_pdf_schedules.py lines 119-264) -/

/-- One lesson accumulator / emitted template.  The source's dict always holds
a `time_range` 4-tuple (truthy) once created; the other fields start as `None`.
The group is a single letter. -/
structure Lesson where
  time_range : Nat × Nat × Nat × Nat
  corso : Option Str
  gruppo : Option Char
  docente : Option Str
  aula : Option Str
deriving DecidableEq, Repr

/-- Python truthiness of an optional string (`None` and `""` are falsy). -/
def truthyOpt : Option Str → Bool
  | none => false
  | some s => !s.isEmpty

/-- Python truthiness of the stored group letter (a one-letter string). -/
def truthyChar : Option Char → Bool
  | none => false
  | some _ => true

/-- Fresh accumulator opened by a time-range line (source lines 155-161). -/
def newLesson (tr : Nat × Nat × Nat × Nat) : Lesson :=
  ⟨tr, none, none, none, none⟩

/-- Mid-cell append on a new time-range line (source lines 150-152): the open
lesson is appended whenever it exists — its `time_range` tuple is always
truthy — with no check of the course name. -/
def midFlush : Option Lesson → List Lesson
  | some L => [L]
  | none => []

/-- End-of-input flush (source lines 260-262): requires a truthy course name. -/
def finalFlush : Option Lesson → List Lesson
  | some L => if truthyOpt L.corso then [L] else []
  | none => []

/-- Invalid-residual test after title stripping (source lines 209-212). -/
def invalidDocente (d : Str) : Bool :=
  let dc := stripS (lowerS d)
  d.isEmpty || dc == str "ssa" || dc == str "ssa/" || dc == str "ssa/ " ||
    dc == str "ssa\n" || dc == str "ssa " || dc == ([] : Str) || dc.length ≤ 2

/-- The room keywords of the room-line test (source line 236). -/
def aulaKeywords : List Str :=
  [str "LAB", str "CONFERENCE", str "MAGNA", str "DIGITAL", str "HUB",
   str "VISUAL", str "PHOTO", str "3D"]

/-- The extended keyword list of the instructor look-ahead (source line 218). -/
def lookaheadAulaKeywords : List Str :=
  [str "LAB", str "CONFERENCE", str "MAGNA", str "DIGITAL", str "HUB",
   str "VISUAL", str "PHOTO", str "3D", str "VIA", str "FINLANDIA",
   str "PITTURA", str "MOVIE", str "HALL"]

/-- `any(keyword in hay for keyword in kws)`. -/
def containsAny (hay : Str) (kws : List Str) : Bool :=
  kws.any (fun k => containsSub hay k)

/-- Character class of the plausible-name regex (source line 222): ASCII
letters, the accented range U+00C0..U+00FF, whitespace, apostrophe, hyphen,
slash. -/
def isNameChar (c : Char) : Bool :=
  upperAZ c || ('a' ≤ c && c ≤ 'z') || (0xC0 ≤ c.toNat && c.toNat ≤ 0xFF) ||
    isWS c || c = '\'' || c = '-' || c = '/'

/-- The look-ahead acceptance test for adopting the next line as the surname
(source lines 217-224): not a room line by the extended keyword list, not a
group token, not a time range, and a plausible personal name longer than two
characters. -/
def lookaheadOk (next : Str) : Bool :=
  let isNotAula := !(containsAny (upperS next) lookaheadAulaKeywords)
  let isNotGroup := (extract_group_from_text next).isNone
  let isNotTime := (parse_time next).isNone
  let isLikelyName := (!next.isEmpty && next.all isNameChar) && next.length > 2
  !next.isEmpty && isNotAula && isNotGroup && isNotTime && isLikelyName

/-- The save step for the instructor field (source lines 229-231): stored only
when the (re-stripped) candidate is longer than two characters. -/
def saveDocente (d : Str) : Option Str :=
  if !d.isEmpty && (stripS d).length > 2 then some (stripS d) else none

/-- Single-digit test `line.isdigit() and len(line) == 1` (source line 248). -/
def isSingleDigit : Str → Bool
  | [c] => c.isDigit
  | _ => false

/-- The room-value cleanup `re.sub('\s*\(portatili\)', '', aula)` with the
greedy leading whitespace absorbed into the deleted match. -/
def remPortAux : Nat → Str → Str
  | 0, s => s
  | fuel + 1, s =>
    match s with
    | [] => []
    | c :: r =>
      let afterWs := (c :: r).dropWhile isWS
      if ciPrefixOf (str "(portatili)") afterWs then remPortAux fuel (afterWs.drop 11)
      else c :: remPortAux fuel r

/-- Room value computed from a room line (source lines 237-240). -/
def removePortatili (line : Str) : Str :=
  stripS (remPortAux (stripS line).length (stripS line))

/-- The line-scanning loop of `parse_cell_content` (source lines 144-258) as a
fold over the line list: each step consumes one line, or two when the
instructor look-ahead adopts the following line.  The `fuel` argument only
makes the recursion structural; every step consumes at least one line, so the
initial fuel `lines.length` supplied by `cellLoop` is never exhausted and the
zero-fuel fallback is unreachable. -/
def cellLoopF : Nat → List Str → Option Lesson → List Lesson
  | _, [], cur => finalFlush cur
  | 0, _ :: _, cur => finalFlush cur
  | fuel + 1, line :: rest, cur =>
    match parse_time line with
    | some tr => midFlush cur ++ cellLoopF fuel rest (some (newLesson tr))
    | none =>
      match cur with
      | none => cellLoopF fuel rest none
      | some L =>
        if !truthyChar L.gruppo && (extract_group_from_text line).isSome then
          cellLoopF fuel rest (some { L with gruppo := extract_group_from_text line })
        else if !truthyOpt L.docente && containsSub (stripS (lowerS line)) (str "prof") then
          let d0 := clean_docente line
          match rest with
          | next0 :: rest2 =>
            let next := stripS next0
            if invalidDocente d0 && lookaheadOk next then
              cellLoopF fuel rest2 (some { L with docente := saveDocente next })
            else
              cellLoopF fuel (next0 :: rest2) (some { L with docente := saveDocente d0 })
          | [] => cellLoopF fuel [] (some { L with docente := saveDocente d0 })
        else if !truthyOpt L.aula && containsAny (upperS line) aulaKeywords then
          cellLoopF fuel rest (some { L with aula := some (removePortatili line) })
        else if !truthyOpt L.corso then
          if isSingleDigit line then cellLoopF fuel rest (some L)
          else if (extract_group_from_text line).isSome then cellLoopF fuel rest (some L)
          else cellLoopF fuel rest (some { L with corso := some (stripS line) })
        else cellLoopF fuel rest (some L)

/-- The scanning loop run with its adequate fuel. -/
def cellLoop (lines : List Str) (cur : Option Lesson) : List Lesson :=
  cellLoopF lines.length lines cur

/-- Python `cell_text.split('\n')`. -/
def splitNl : Str → List Str
  | [] => [[]]
  | c :: r =>
    if c = '\n' then [] :: splitNl r
    else
      match splitNl r with
      | h :: t => (c :: h) :: t
      | [] => [[c]]

/-- Line preparation (source line 136): split, strip, drop empties. -/
def splitLines (cell : Str) : List Str :=
  ((splitNl cell).map stripS).filter (fun l => !l.isEmpty)

/-- `parse_cell_content` (extract_pdf_schedules.py lines 119-264). -/
def parse_cell_content (cell : Str) : List Lesson :=
  if cell.isEmpty || (stripS cell).isEmpty then []
  else
    let lines := splitLines cell
    if lines.length < 2 then []
    else cellLoop lines none

example :
    parse_cell_content
      (str "10.00-13.00\nGraphic Design 2\nGruppo C\nProf.ssa Crescioli\nMultimedia Lab") =
    [⟨(10, 0, 13, 0), some (str "Graphic Design 2"), some 'C',
      some (str "Crescioli"), some (str "Multimedia Lab")⟩] := by decide

example : parse_cell_content (str "solo una riga") = [] := by decide

example :
    parse_cell_content (str "9.00-10.00\n11.00-12.00\nMath") =
    [⟨(9, 0, 10, 0), none, none, none, none⟩,
     ⟨(11, 0, 12, 0), some (str "Math"), none, none, none⟩] := by decide

/-! ### Structural lemmas about stripping and line splitting -/

theorem dropWhile_head_not (p : Char → Bool) (l : Str) (c : Char) (r : Str)
    (h : l.dropWhile p = c :: r) : p c = false := by
  induction l with
  | nil => simp at h
  | cons a t ih =>
    rw [List.dropWhile_cons] at h
    by_cases hpa : p a = true
    · rw [if_pos hpa] at h; exact ih h
    · rw [if_neg hpa] at h
      cases h
      simpa using hpa

theorem dropWhile_isWS_idem (l : Str) :
    (l.dropWhile isWS).dropWhile isWS = l.dropWhile isWS := by
  cases h : l.dropWhile isWS with
  | nil => rfl
  | cons c r =>
    rw [List.dropWhile_cons, dropWhile_head_not isWS l c r h]
    simp

theorem stripS_prefix (s : Str) : ∃ u, stripS s ++ u = s.dropWhile isWS := by
  obtain ⟨t, ht⟩ := List.dropWhile_suffix (l := (s.dropWhile isWS).reverse) (p := isWS)
  refine ⟨t.reverse, ?_⟩
  unfold stripS
  rw [← List.reverse_append, ht, List.reverse_reverse]

theorem stripS_idem (s : Str) : stripS (stripS s) = stripS s := by
  cases h : stripS s with
  | nil => rfl
  | cons c r =>
    obtain ⟨u, hu⟩ := stripS_prefix s
    rw [h] at hu
    have hc : isWS c = false := by
      refine dropWhile_head_not isWS s c (r ++ u) ?_
      rw [← hu]; rfl
    have hrev : (c :: r).reverse = (s.dropWhile isWS).reverse.dropWhile isWS := by
      rw [← h]; unfold stripS; rw [List.reverse_reverse]
    unfold stripS
    rw [show (c :: r).dropWhile isWS = c :: r by simp [List.dropWhile_cons, hc]]
    rw [hrev, dropWhile_isWS_idem, ← hrev, List.reverse_reverse]

theorem mem_dropWhile_of_neg (p : Char → Bool) (l : Str) (c : Char)
    (hc : c ∈ l) (hpc : p c = false) : c ∈ l.dropWhile p := by
  induction l with
  | nil => simp at hc
  | cons a t ih =>
    rw [List.dropWhile_cons]
    by_cases hpa : p a = true
    · rw [if_pos hpa]
      rcases List.mem_cons.mp hc with rfl | hct
      · rw [hpc] at hpa; cases hpa
      · exact ih hct
    · rw [if_neg hpa]; exact hc

theorem stripS_ne_nil (s : Str) (c : Char) (hc : c ∈ s) (hpc : isWS c = false) :
    stripS s ≠ [] := by
  have h1 := mem_dropWhile_of_neg isWS s c hc hpc
  have h2 := mem_dropWhile_of_neg isWS _ c (List.mem_reverse.mpr h1) hpc
  have h4 : c ∈ stripS s := by unfold stripS; exact List.mem_reverse.mpr h2
  intro he
  rw [he] at h4
  simp at h4

theorem mem_splitLines (cell : Str) (l : Str) (h : l ∈ splitLines cell) :
    stripS l = l ∧ l ≠ [] := by
  unfold splitLines at h
  rw [List.mem_filter] at h
  obtain ⟨hm, hne⟩ := h
  rw [List.mem_map] at hm
  obtain ⟨raw, _, rfl⟩ := hm
  refine ⟨stripS_idem raw, ?_⟩
  simpa using hne

theorem splitNl_no_nl (l : Str) (h : '\n' ∉ l) : splitNl l = [l] := by
  induction l with
  | nil => rfl
  | cons c t ih =>
    have hc : ¬(c = '\n') := fun e => h (by simp [e])
    rw [splitNl, if_neg hc, ih (fun e => h (by simp [e]))]

theorem splitNl_append (l1 r : Str) (h : '\n' ∉ l1) :
    splitNl (l1 ++ '\n' :: r) = l1 :: splitNl r := by
  induction l1 with
  | nil => simp [splitNl]
  | cons c t ih =>
    have hc : ¬(c = '\n') := fun e => h (by simp [e])
    rw [List.cons_append, splitNl, if_neg hc, ih (fun e => h (by simp [e]))]

/-! ### Emission invariants of the Cell Lexer (claim C1) -/

theorem mem_midFlush (cur : Option Lesson) (L : Lesson) (h : L ∈ midFlush cur) :
    cur = some L := by
  cases cur with
  | none => simp [midFlush] at h
  | some L0 => simp [midFlush] at h; rw [h]

theorem mem_finalFlush (cur : Option Lesson) (L : Lesson) (h : L ∈ finalFlush cur) :
    cur = some L ∧ truthyOpt L.corso = true := by
  cases cur with
  | none => simp [finalFlush] at h
  | some L0 =>
    simp only [finalFlush] at h
    by_cases ht : truthyOpt L0.corso = true
    · rw [if_pos ht] at h
      simp at h
      subst h
      exact ⟨rfl, ht⟩
    · rw [if_neg ht] at h
      simp at h

theorem cellLoopF_corso_ne_empty (fuel : Nat) :
    ∀ (lines : List Str) (cur : Option Lesson),
      (∀ l ∈ lines, stripS l = l ∧ l ≠ []) →
      (∀ L0, cur = some L0 → L0.corso ≠ some ([] : Str)) →
      ∀ L ∈ cellLoopF fuel lines cur, L.corso ≠ some ([] : Str) := by
  induction fuel with
  | zero =>
    intro lines cur _ hc L hL
    have hfin : L ∈ finalFlush cur := by
      cases lines with
      | nil => exact hL
      | cons a t => exact hL
    obtain ⟨he, _⟩ := mem_finalFlush cur L hfin
    exact hc L he
  | succ fuel ih =>
    intro lines cur hl hc L hL
    cases lines with
    | nil =>
      obtain ⟨he, _⟩ := mem_finalFlush cur L hL
      exact hc L he
    | cons line rest =>
      have hlrest : ∀ l ∈ rest, stripS l = l ∧ l ≠ [] :=
        fun l hm => hl l (by simp [hm])
      simp only [cellLoopF] at hL
      cases hpt : parse_time line with
      | some tr =>
        rw [hpt] at hL
        simp only at hL
        rcases List.mem_append.mp hL with hmid | hrec
        · exact hc L (mem_midFlush cur L hmid)
        · exact ih rest _ hlrest (by rintro L0 ⟨rfl⟩; simp [newLesson]) L hrec
      | none =>
        rw [hpt] at hL
        simp only at hL
        cases cur with
        | none => exact ih rest none hlrest (by rintro L0 ⟨⟩) L hL
        | some L0 =>
          simp only at hL
          have hcor : L0.corso ≠ some ([] : Str) := hc L0 rfl
          split_ifs at hL with h1 h2 h3 h4 h5 h6
          · exact ih rest _ hlrest (by rintro M ⟨rfl⟩; exact hcor) L hL
          · cases rest with
            | nil =>
              simp only at hL
              obtain ⟨he, _⟩ := mem_finalFlush _ L hL
              have heq := Option.some.inj he
              rw [← heq]
              exact hcor
            | cons next0 rest2 =>
              simp only at hL
              split_ifs at hL with h7
              · exact ih rest2 _ (fun l hm => hl l (by simp [hm]))
                  (by rintro M ⟨rfl⟩; exact hcor) L hL
              · exact ih (next0 :: rest2) _ hlrest
                  (by rintro M ⟨rfl⟩; exact hcor) L hL
          · exact ih rest _ hlrest (by rintro M ⟨rfl⟩; exact hcor) L hL
          · exact ih rest _ hlrest (by rintro M ⟨rfl⟩; exact hcor) L hL
          · exact ih rest _ hlrest (by rintro M ⟨rfl⟩; exact hcor) L hL
          · -- the branch that sets the course name to the stripped line
            obtain ⟨hstr, hne⟩ := hl line (by simp)
            exact ih rest _ hlrest
              (by
                rintro M ⟨rfl⟩
                intro he
                apply hne
                have h2 : some (stripS line) = some ([] : Str) := by simpa using he
                rw [hstr] at h2
                exact Option.some.inj h2) L hL
          · exact ih rest _ hlrest (by rintro M ⟨rfl⟩; exact hcor) L hL

/-- C1 counterexample: in the cell `"9.00-10.00\n11.00-12.00\nMath"` the first
time-range line opens a lesson that never acquires a course name, yet the
mid-cell append on the second time-range line emits it anyway — the Cell Lexer
emits a template with no course name. -/
theorem C1_counterexample :
    parse_cell_content (str "9.00-10.00\n11.00-12.00\nMath") =
      [⟨(9, 0, 10, 0), none, none, none, none⟩,
       ⟨(11, 0, 12, 0), some (str "Math"), none, none, none⟩] ∧
    ∃ L ∈ parse_cell_content (str "9.00-10.00\n11.00-12.00\nMath"), L.corso = none := by
  exact ⟨by decide, by decide⟩

/-- C1 amended: only the end-of-input flush enforces a truthy (set, non-empty)
course name; a template appended mid-cell when a new time-range line opens is
guaranteed only its time range and may lack the course name.  Whenever a course
name is set on an emitted template it is a non-empty string. -/
theorem C1_flush_and_course_invariant :
    (∀ (cur : Option Lesson), ∀ L ∈ cellLoop [] cur, truthyOpt L.corso = true) ∧
    (∀ (cell : Str), ∀ L ∈ parse_cell_content cell, L.corso ≠ some ([] : Str)) := by
  constructor
  · intro cur L hL
    exact (mem_finalFlush cur L hL).2
  · intro cell L hL
    simp only [parse_cell_content] at hL
    split_ifs at hL with h1 h2
    · simp at hL
    · simp at hL
    · exact cellLoopF_corso_ne_empty _ (splitLines cell) none
        (fun l hm => mem_splitLines cell l hm) (by rintro M ⟨⟩) L hL

/-- Witness for C1's amended theorem on a concrete flush: a lesson whose course
is set flows through the end-of-input flush with a truthy course name. -/
theorem C1_flush_witness :
    (⟨(9, 0, 10, 0), some (str "Ok"), none, none, none⟩ : Lesson) ∈
      cellLoop [] (some (⟨(9, 0, 10, 0), some (str "Ok"), none, none, none⟩ : Lesson)) ∧
    truthyOpt (Lesson.corso ⟨(9, 0, 10, 0), some (str "Ok"), none, none, none⟩) = true := by
  refine ⟨by decide, ?_⟩
  exact C1_flush_and_course_invariant.1
    (some (⟨(9, 0, 10, 0), some (str "Ok"), none, none, none⟩ : Lesson)) _ (by decide)

/-! ### The instructor look-ahead (claim C3) -/

/-- The adoption condition exactly as the claim words it: the next line is
non-empty, is not a room line by the eight-keyword room definition, is not a
group token, is not a time range, and is a plausible name longer than two
characters. -/
def claimedAdoptCond (next : Str) : Bool :=
  !next.isEmpty && !(containsAny (upperS next) aulaKeywords) &&
    (extract_group_from_text next).isNone && (parse_time next).isNone &&
    (next.all isNameChar && next.length > 2)

/-- C3 counterexample: `"Savia"` satisfies every condition of the claim (the
room-line test uses the eight keywords), yet the source's look-ahead rejects it
because its extended keyword list also contains `VIA`; in the concrete cell the
instructor field therefore stays unset instead of adopting `"Savia"`. -/
theorem C3_counterexample :
    claimedAdoptCond (str "Savia") = true ∧
    lookaheadOk (str "Savia") = false ∧
    parse_cell_content (str "10.00-13.00\nCorso\nProf. Al\nSavia") =
      [⟨(10, 0, 13, 0), some (str "Corso"), none, none, none⟩] := by
  exact ⟨by decide, by decide, by decide⟩

/-- List helper: a boolean-nonempty filter keeps a list of non-empty strings. -/
theorem filter_nonempty_eq_self (l : List Str) (h : ∀ x ∈ l, x.isEmpty = false) :
    l.filter (fun x => !x.isEmpty) = l := by
  rw [List.filter_eq_self]
  intro a ha
  rw [h a ha]
  rfl

theorem isEmpty_false_of_ne_nil (l : Str) (h : l ≠ []) : l.isEmpty = false := by
  cases l with
  | nil => exact absurd rfl h
  | cons a t => rfl

/-- C3 amended: the look-ahead adopts the following line as the surname if and
only if the source's condition holds, whose room-line test uses the extended
thirteen-keyword list `LAB, CONFERENCE, MAGNA, DIGITAL, HUB, VISUAL, PHOTO,
3D, VIA, FINLANDIA, PITTURA, MOVIE, HALL` (not the eight-keyword room
definition): in a cell whose instructor line leaves a two-character residual,
the emitted instructor is the following line exactly when `lookaheadOk`
accepts it, and stays unset otherwise. -/
theorem C3_lookahead_amended (next : Str)
    (hstrip : stripS next = next) (hne : next ≠ []) (hnl : '\n' ∉ next)
    (hprof : containsSub (stripS (lowerS next)) (str "prof") = false) :
    (parse_cell_content (str "10.00-13.00\nCorso\nProf. Al\n" ++ next)).map Lesson.docente =
      [if lookaheadOk next then some next else none] := by
  have hnb : next.isEmpty = false := isEmpty_false_of_ne_nil next hne
  have hdec : str "10.00-13.00\nCorso\nProf. Al\n" ++ next =
      (str "10.00-13.00") ++ '\n' :: ((str "Corso") ++ '\n' :: ((str "Prof. Al") ++ '\n' :: next)) := rfl
  have hsplit : splitNl (str "10.00-13.00\nCorso\nProf. Al\n" ++ next)
      = [str "10.00-13.00", str "Corso", str "Prof. Al", next] := by
    rw [hdec, splitNl_append _ _ (by decide), splitNl_append _ _ (by decide),
      splitNl_append _ _ (by decide), splitNl_no_nl next hnl]
  have hlines : splitLines (str "10.00-13.00\nCorso\nProf. Al\n" ++ next)
      = [str "10.00-13.00", str "Corso", str "Prof. Al", next] := by
    unfold splitLines
    rw [hsplit]
    simp only [List.map_cons, List.map_nil]
    rw [show stripS (str "10.00-13.00") = str "10.00-13.00" from by decide,
      show stripS (str "Corso") = str "Corso" from by decide,
      show stripS (str "Prof. Al") = str "Prof. Al" from by decide, hstrip]
    apply filter_nonempty_eq_self
    intro x hx
    rcases List.mem_cons.mp hx with rfl | hx
    · decide
    rcases List.mem_cons.mp hx with rfl | hx
    · decide
    rcases List.mem_cons.mp hx with rfl | hx
    · decide
    rcases List.mem_cons.mp hx with rfl | hx
    · exact hnb
    · simp at hx
  have hcells : (str "10.00-13.00\nCorso\nProf. Al\n" ++ next).isEmpty = false := by
    rw [hdec]; rfl
  have hstrips : (stripS (str "10.00-13.00\nCorso\nProf. Al\n" ++ next)).isEmpty = false := by
    apply isEmpty_false_of_ne_nil
    apply stripS_ne_nil _ '1'
    · rw [hdec]
      exact List.mem_append.mpr (Or.inl (by decide))
    · decide
  have hpc : parse_cell_content (str "10.00-13.00\nCorso\nProf. Al\n" ++ next)
      = cellLoopF 4 [str "10.00-13.00", str "Corso", str "Prof. Al", next] none := by
    unfold parse_cell_content
    rw [hcells, hstrips]
    simp only [Bool.or_self, Bool.false_eq_true, if_false, hlines]
    rfl
  rw [hpc]
  simp only [cellLoopF,
    show parse_time (str "10.00-13.00") = some (10, 0, 13, 0) from by decide,
    show parse_time (str "Corso") = none from by decide,
    show parse_time (str "Prof. Al") = none from by decide,
    show extract_group_from_text (str "Corso") = none from by decide,
    show extract_group_from_text (str "Prof. Al") = none from by decide,
    show containsSub (stripS (lowerS (str "Corso"))) (str "prof") = false from by decide,
    show containsSub (stripS (lowerS (str "Prof. Al"))) (str "prof") = true from by decide,
    show containsAny (upperS (str "Corso")) aulaKeywords = false from by decide,
    show containsAny (upperS (str "Prof. Al")) aulaKeywords = false from by decide,
    show isSingleDigit (str "Corso") = false from by decide,
    show clean_docente (str "Prof. Al") = str "Al" from by decide,
    show invalidDocente (str "Al") = true from by decide,
    show saveDocente (str "Al") = none from by decide,
    show stripS (str "Corso") = str "Corso" from by decide,
    show (str "Corso").isEmpty = false from by decide,
    hstrip, midFlush, finalFlush, newLesson, truthyChar, truthyOpt,
    List.nil_append, Option.isSome_none, Bool.not_false, Bool.false_eq_true,
    Bool.and_true, Bool.true_and, Bool.and_false, Bool.false_and, if_false, if_true,
    List.isEmpty_nil, Bool.not_true]
  by_cases hla : lookaheadOk next = true
  · rw [hla]
    have hlen : 2 < next.length := by
      simp only [lookaheadOk, Bool.and_eq_true, decide_eq_true_eq] at hla
      exact hla.2.2
    have hsave : saveDocente next = some next := by
      unfold saveDocente
      rw [hstrip, hnb]
      simp only [Bool.not_false, Bool.true_and, decide_eq_true_eq]
      rw [if_pos hlen]
    simp only [if_true, hsave]
    simp
  · rw [Bool.not_eq_true] at hla
    rw [hla]
    simp only [Bool.false_eq_true, if_false]
    cases hpt : parse_time next with
    | some tr =>
      simp [hpt, midFlush, finalFlush, truthyOpt, newLesson]
    | none =>
      simp only [hpt]
      by_cases hg : (extract_group_from_text next).isSome = true
      · simp [hg, finalFlush, truthyOpt, show (str "Corso").isEmpty = false from by decide]
      · simp only [Bool.not_eq_true] at hg
        simp only [hg, Bool.false_eq_true, if_false, hprof, Bool.and_false]
        by_cases hau : containsAny (upperS next) aulaKeywords = true
        · simp [hau, finalFlush, truthyOpt, show (str "Corso").isEmpty = false from by decide]
        · simp only [Bool.not_eq_true] at hau
          simp [hau, finalFlush, truthyOpt, show (str "Corso").isEmpty = false from by decide]

/-- Witness for C3's amended theorem at the concrete next line `"Rossi"`, which
the look-ahead accepts: the emitted instructor is exactly that line. -/
theorem C3_lookahead_amended_witness :
    stripS (str "Rossi") = str "Rossi" ∧
    (parse_cell_content (str "10.00-13.00\nCorso\nProf. Al\n" ++ str "Rossi")).map
        Lesson.docente =
      [if lookaheadOk (str "Rossi") then some (str "Rossi") else none] := by
  exact ⟨by decide,
    C3_lookahead_amended (str "Rossi") (by decide) (by decide) (by decide) (by decide)⟩

/-! ## Calendar arithmetic and the Weekly Recurrence Expander (claim C4)

Dates are modelled by their proleptic-Gregorian ordinal (Python
`datetime.toordinal()`, with `date(1,1,1)` having ordinal 1), so that
`datetime.weekday()` is `(ordinal - 1) % 7` with Monday = 0. -/

/-- Gregorian leap-year test. -/
def isLeap (y : Nat) : Bool := (y % 4 = 0 && y % 100 ≠ 0) || y % 400 = 0

/-- Days in a month of a year. -/
def daysInMonth (y m : Nat) : Nat :=
  if m = 2 then (if isLeap y then 29 else 28)
  else if m = 4 || m = 6 || m = 9 || m = 11 then 30
  else 31

/-- Days in the months of year `y` strictly before month `m`. -/
def daysBeforeMonth (y m : Nat) : Nat :=
  (List.range' 1 (m - 1)).foldl (fun a k => a + daysInMonth y k) 0

/-- Proleptic-Gregorian ordinal of a date, Python `date(y,m,d).toordinal()`. -/
def toordinal (y m d : Nat) : Nat :=
  365 * (y - 1) + (y - 1) / 4 - (y - 1) / 100 + (y - 1) / 400 + daysBeforeMonth y m + d

/-- Python `datetime.weekday()`: 0 = Monday .. 6 = Sunday. -/
def pyWeekday (o : Nat) : Nat := (o + 6) % 7

example : toordinal 1 1 1 = 1 := by decide
example : pyWeekday (toordinal 2024 10 1) = 1 := by decide
example : pyWeekday (toordinal 2024 11 4) = 0 := by decide
example : pyWeekday (toordinal 2025 3 30) = 6 := by decide

/-- `get_semester_dates` (extract_pdf_schedules.py lines 266-280), as ordinals:
semester 1 runs Oct 1 of the base year to Jan 31 of the next; semester 2 runs
Feb 1 to May 31 of the next year. -/
def get_semester_dates (semestre : Nat) (base_year : Nat) : Nat × Nat :=
  if semestre = 1 then (toordinal base_year 10 1, toordinal (base_year + 1) 1 31)
  else (toordinal (base_year + 1) 2 1, toordinal (base_year + 1) 5 31)

/-- The weekly expansion loop of `extract_lessons_from_pdf` (source lines
410-437): from the cursor, resolve the next date of the target weekday
(`days_until = (weekday - cursor.weekday()) % 7`), stop if it exceeds the
semester end, otherwise emit it and advance the cursor by seven days. -/
def expandLoop (wd endd : Nat) (cur : Nat) : List Nat :=
  if cur ≤ endd then
    let ld := cur + (wd + 7 - pyWeekday cur) % 7
    if ld ≤ endd then ld :: expandLoop wd endd (cur + 7) else []
  else []
termination_by endd + 1 - cur
decreasing_by omega

/-- The Weekly Recurrence Expander: all emitted dates for one weekday over a
semester window. -/
def expandDates (wd start endd : Nat) : List Nat := expandLoop wd endd start

theorem expandLoop_unfold (wd endd cur : Nat) :
    expandLoop wd endd cur =
      if cur ≤ endd then
        let ld := cur + (wd + 7 - pyWeekday cur) % 7
        if ld ≤ endd then ld :: expandLoop wd endd (cur + 7) else []
      else [] := by
  rw [expandLoop]

theorem expandLoop_unfold2 (wd endd cur : Nat) :
    expandLoop wd endd cur =
      if cur ≤ endd then
        (if cur + (wd + 7 - pyWeekday cur) % 7 ≤ endd then
          (cur + (wd + 7 - pyWeekday cur) % 7) :: expandLoop wd endd (cur + 7)
         else [])
      else [] := by
  rw [expandLoop_unfold]

theorem expandLoop_sound (wd endd : Nat) (hwd : wd < 7) :
    ∀ n cur, endd + 1 - cur ≤ n →
      ∀ x ∈ expandLoop wd endd cur, pyWeekday x = wd ∧ cur ≤ x ∧ x ≤ endd := by
  intro n
  induction n with
  | zero =>
    intro cur hn x hx
    rw [expandLoop_unfold2, if_neg (by omega)] at hx
    simp at hx
  | succ n ih =>
    intro cur hn x hx
    rw [expandLoop_unfold2] at hx
    by_cases hce : cur ≤ endd
    · rw [if_pos hce] at hx
      by_cases hld : cur + (wd + 7 - pyWeekday cur) % 7 ≤ endd
      · rw [if_pos hld] at hx
        rcases List.mem_cons.mp hx with rfl | hx2
        · refine ⟨?_, by omega, hld⟩
          unfold pyWeekday at *
          omega
        · obtain ⟨h1, h2, h3⟩ := ih (cur + 7) (by omega) x hx2
          exact ⟨h1, by omega, h3⟩
      · rw [if_neg hld] at hx; simp at hx
    · rw [if_neg hce] at hx; simp at hx

theorem expandLoop_complete (wd endd : Nat) (hwd : wd < 7) :
    ∀ n cur, endd + 1 - cur ≤ n →
      ∀ x, cur ≤ x → x ≤ endd → pyWeekday x = wd → x ∈ expandLoop wd endd cur := by
  intro n
  induction n with
  | zero => intro cur hn x h1 h2 _; omega
  | succ n ih =>
    intro cur hn x h1 h2 hx
    have hce : cur ≤ endd := by omega
    rw [expandLoop_unfold2, if_pos hce]
    have hxld : cur + (wd + 7 - pyWeekday cur) % 7 ≤ x := by
      unfold pyWeekday at *
      omega
    have hld : cur + (wd + 7 - pyWeekday cur) % 7 ≤ endd := by omega
    rw [if_pos hld]
    by_cases hex : x = cur + (wd + 7 - pyWeekday cur) % 7
    · exact List.mem_cons.mpr (Or.inl hex)
    · refine List.mem_cons.mpr (Or.inr (ih (cur + 7) (by omega) x ?_ h2 hx))
      unfold pyWeekday at *
      omega

theorem expandLoop_sorted (wd endd : Nat) (hwd : wd < 7) :
    ∀ n cur, endd + 1 - cur ≤ n → List.Pairwise (· < ·) (expandLoop wd endd cur) := by
  intro n
  induction n with
  | zero =>
    intro cur hn
    rw [expandLoop_unfold2, if_neg (by omega)]
    exact List.Pairwise.nil
  | succ n ih =>
    intro cur hn
    rw [expandLoop_unfold2]
    by_cases hce : cur ≤ endd
    · rw [if_pos hce]
      by_cases hld : cur + (wd + 7 - pyWeekday cur) % 7 ≤ endd
      · rw [if_pos hld]
        refine List.Pairwise.cons ?_ (ih (cur + 7) (by omega))
        intro y hy
        have hy7 : cur + 7 ≤ y := by
          have := expandLoop_sound wd endd hwd (endd + 1 - (cur + 7)) (cur + 7)
            (le_refl _) y hy
          omega
        omega
      · rw [if_neg hld]; exact List.Pairwise.nil
    · rw [if_neg hce]; exact List.Pairwise.nil

/-- C4: the Weekly Recurrence Expander emits exactly the dates of the target
weekday inside the closed semester window, in increasing order (soundness,
order and completeness), and over semester 1 of base year 2024 with weekday
Monday it emits exactly the seventeen Mondays 2024-10-07 .. 2025-01-27. -/
theorem C4_weekly_expander :
    (∀ wd start endd : Nat, wd < 7 →
      (∀ x ∈ expandDates wd start endd, pyWeekday x = wd ∧ start ≤ x ∧ x ≤ endd) ∧
      List.Pairwise (· < ·) (expandDates wd start endd) ∧
      (∀ x : Nat, start ≤ x → x ≤ endd → pyWeekday x = wd → x ∈ expandDates wd start endd)) ∧
    expandDates 0 (get_semester_dates 1 2024).1 (get_semester_dates 1 2024).2 =
      [toordinal 2024 10 7,
       toordinal 2024 10 14,
       toordinal 2024 10 21,
       toordinal 2024 10 28,
       toordinal 2024 11 4,
       toordinal 2024 11 11,
       toordinal 2024 11 18,
       toordinal 2024 11 25,
       toordinal 2024 12 2,
       toordinal 2024 12 9,
       toordinal 2024 12 16,
       toordinal 2024 12 23,
       toordinal 2024 12 30,
       toordinal 2025 1 6,
       toordinal 2025 1 13,
       toordinal 2025 1 20,
       toordinal 2025 1 27] := by
  constructor
  · intro wd start endd hwd
    refine ⟨fun x hx => ?_, ?_, fun x h1 h2 h3 => ?_⟩
    · exact expandLoop_sound wd endd hwd (endd + 1 - start) start (le_refl _) x hx
    · exact expandLoop_sorted wd endd hwd (endd + 1 - start) start (le_refl _)
    · exact expandLoop_complete wd endd hwd (endd + 1 - start) start (le_refl _) x h1 h2 h3
  · rw [show (get_semester_dates 1 2024).1 = 739160 from by decide,
      show (get_semester_dates 1 2024).2 = 739282 from by decide,
    show toordinal 2024 10 7 = 739166 from by decide,
    show toordinal 2024 10 14 = 739173 from by decide,
    show toordinal 2024 10 21 = 739180 from by decide,
    show toordinal 2024 10 28 = 739187 from by decide,
    show toordinal 2024 11 4 = 739194 from by decide,
    show toordinal 2024 11 11 = 739201 from by decide,
    show toordinal 2024 11 18 = 739208 from by decide,
    show toordinal 2024 11 25 = 739215 from by decide,
    show toordinal 2024 12 2 = 739222 from by decide,
    show toordinal 2024 12 9 = 739229 from by decide,
    show toordinal 2024 12 16 = 739236 from by decide,
    show toordinal 2024 12 23 = 739243 from by decide,
    show toordinal 2024 12 30 = 739250 from by decide,
    show toordinal 2025 1 6 = 739257 from by decide,
    show toordinal 2025 1 13 = 739264 from by decide,
    show toordinal 2025 1 20 = 739271 from by decide,
    show toordinal 2025 1 27 = 739278 from by decide,
    expandDates]
    have h17 : expandLoop 0 739282 739279 = [] := by
      rw [expandLoop_unfold2]; norm_num [pyWeekday]
    have h16 : expandLoop 0 739282 739272 = [739278] := by
      rw [expandLoop_unfold2]; norm_num [pyWeekday, h17]
    have h15 : expandLoop 0 739282 739265 = [739271, 739278] := by
      rw [expandLoop_unfold2]; norm_num [pyWeekday, h16]
    have h14 : expandLoop 0 739282 739258 = [739264, 739271, 739278] := by
      rw [expandLoop_unfold2]; norm_num [pyWeekday, h15]
    have h13 : expandLoop 0 739282 739251 = [739257, 739264, 739271, 739278] := by
      rw [expandLoop_unfold2]; norm_num [pyWeekday, h14]
    have h12 : expandLoop 0 739282 739244 = [739250, 739257, 739264, 739271, 739278] := by
      rw [expandLoop_unfold2]; norm_num [pyWeekday, h13]
    have h11 : expandLoop 0 739282 739237 = [739243, 739250, 739257, 739264, 739271, 739278] := by
      rw [expandLoop_unfold2]; norm_num [pyWeekday, h12]
    have h10 : expandLoop 0 739282 739230 = [739236, 739243, 739250, 739257, 739264, 739271, 739278] := by
      rw [expandLoop_unfold2]; norm_num [pyWeekday, h11]
    have h9 : expandLoop 0 739282 739223 = [739229, 739236, 739243, 739250, 739257, 739264, 739271, 739278] := by
      rw [expandLoop_unfold2]; norm_num [pyWeekday, h10]
    have h8 : expandLoop 0 739282 739216 = [739222, 739229, 739236, 739243, 739250, 739257, 739264, 739271, 739278] := by
      rw [expandLoop_unfold2]; norm_num [pyWeekday, h9]
    have h7 : expandLoop 0 739282 739209 = [739215, 739222, 739229, 739236, 739243, 739250, 739257, 739264, 739271, 739278] := by
      rw [expandLoop_unfold2]; norm_num [pyWeekday, h8]
    have h6 : expandLoop 0 739282 739202 = [739208, 739215, 739222, 739229, 739236, 739243, 739250, 739257, 739264, 739271, 739278] := by
      rw [expandLoop_unfold2]; norm_num [pyWeekday, h7]
    have h5 : expandLoop 0 739282 739195 = [739201, 739208, 739215, 739222, 739229, 739236, 739243, 739250, 739257, 739264, 739271, 739278] := by
      rw [expandLoop_unfold2]; norm_num [pyWeekday, h6]
    have h4 : expandLoop 0 739282 739188 = [739194, 739201, 739208, 739215, 739222, 739229, 739236, 739243, 739250, 739257, 739264, 739271, 739278] := by
      rw [expandLoop_unfold2]; norm_num [pyWeekday, h5]
    have h3 : expandLoop 0 739282 739181 = [739187, 739194, 739201, 739208, 739215, 739222, 739229, 739236, 739243, 739250, 739257, 739264, 739271, 739278] := by
      rw [expandLoop_unfold2]; norm_num [pyWeekday, h4]
    have h2 : expandLoop 0 739282 739174 = [739180, 739187, 739194, 739201, 739208, 739215, 739222, 739229, 739236, 739243, 739250, 739257, 739264, 739271, 739278] := by
      rw [expandLoop_unfold2]; norm_num [pyWeekday, h3]
    have h1 : expandLoop 0 739282 739167 = [739173, 739180, 739187, 739194, 739201, 739208, 739215, 739222, 739229, 739236, 739243, 739250, 739257, 739264, 739271, 739278] := by
      rw [expandLoop_unfold2]; norm_num [pyWeekday, h2]
    have h0 : expandLoop 0 739282 739160 = [739166, 739173, 739180, 739187, 739194, 739201, 739208, 739215, 739222, 739229, 739236, 739243, 739250, 739257, 739264, 739271, 739278] := by
      rw [expandLoop_unfold2]; norm_num [pyWeekday, h1]
    exact h0

/-- Witness for C4 at the concrete Monday instance: 2024-10-07 is a Monday in
the semester-1 window and is emitted by the expander. -/
theorem C4_weekly_expander_witness :
    (0 : Nat) < 7 ∧ 739166 ∈ expandDates 0 739160 739282 := by
  refine ⟨by decide, ?_⟩
  exact (C4_weekly_expander.1 0 739160 739282 (by decide)).2.2 739166
    (by decide) (by decide) (by decide)

/-! ## DST rule and timezone fixing (`fix_timezone.py`) -/

/-- A naive timestamp, the result of Python's `datetime.fromisoformat` with
microseconds ignored (they never influence the comparisons below on the
boundary instants, which have zero time-of-day). -/
structure DT where
  y : Nat
  m : Nat
  d : Nat
  hh : Nat
  mi : Nat
  ss : Nat
deriving DecidableEq

/-- Seconds since the proleptic epoch: the comparison order of valid Python
naive datetimes. -/
def dtSecs (t : DT) : Nat :=
  toordinal t.y t.m t.d * 86400 + t.hh * 3600 + t.mi * 60 + t.ss

/-- The scan `for day in range(31, 24, -1)` of `get_dst_transition_dates`
(fix_timezone.py lines 31-43): the first day from 31 downwards whose date is a
Sunday (`weekday() == 6`); `none` models the unbound-variable failure when no
day matches, which the caller's `except` turns into the default offset. -/
def findLastSunday (y m : Nat) : Option Nat :=
  if pyWeekday (toordinal y m 31) = 6 then some 31
  else if pyWeekday (toordinal y m 30) = 6 then some 30
  else if pyWeekday (toordinal y m 29) = 6 then some 29
  else if pyWeekday (toordinal y m 28) = 6 then some 28
  else if pyWeekday (toordinal y m 27) = 6 then some 27
  else if pyWeekday (toordinal y m 26) = 6 then some 26
  else if pyWeekday (toordinal y m 25) = 6 then some 25
  else none

/-- `get_dst_transition_dates` (fix_timezone.py lines 22-45): the last Sunday
of March and of October of a year, as midnight datetimes. -/
def get_dst_transition_dates (year : Nat) : Option (DT × DT) :=
  match findLastSunday year 3, findLastSunday year 10 with
  | some a, some b => some (⟨year, 3, a, 0, 0, 0⟩, ⟨year, 10, b, 0, 0, 0⟩)
  | _, _ => none

/-- Core of `get_correct_timezone` (fix_timezone.py lines 62-72) after the ISO
parse: CEST exactly when `inizio_cest <= dt < fine_cest`; any failure falls to
the `except` default `+02:00`. -/
def get_correct_timezone_core (dt : DT) : Str :=
  match get_dst_transition_dates dt.y with
  | some (iniz, fine) =>
    if dtSecs iniz ≤ dtSecs dt ∧ dtSecs dt < dtSecs fine then str "+02:00"
    else str "+01:00"
  | none => str "+02:00"

/-- Timezone-suffix removal of `get_correct_timezone` (lines 54-59): the text
before the first `+`, else the text with every `Z` removed, else unchanged. -/
def stripTz (s : Str) : Str :=
  if s.contains '+' then s.takeWhile (fun c => c ≠ '+')
  else if s.contains 'Z' then s.filter (fun c => c ≠ 'Z')
  else s

/-- Regex-free fragment: exactly four digits, returning value and rest. -/
def take4 : Str → Option (Nat × Str)
  | a :: b :: c :: d :: r =>
    if a.isDigit && b.isDigit && c.isDigit && d.isDigit then
      some (1000 * digitVal a + 100 * digitVal b + 10 * digitVal c + digitVal d, r)
    else none
  | _ => none

/-- Expect one literal character. -/
def expectChar (ch : Char) : Str → Option Str
  | c :: r => if c = ch then some r else none
  | [] => none

/-- Time part of `datetime.fromisoformat` (Python 3.7-3.10): `HH`, `HH:MM`,
`HH:MM:SS`, optionally followed by a fraction of exactly three or six digits
(whose value is ignored here, see `DT`).  A trailing UTC offset makes the
overall call fail for this caller: Python would parse it into an aware
datetime whose later comparison with the naive transition instants raises
`TypeError`, caught by the same `except` — output-equivalent to a parse
failure, which is how it is modelled. -/
def parseTimePart (s : Str) : Option (Nat × Nat × Nat) :=
  match take2 s with
  | none => none
  | some (hh, r) =>
    match r with
    | [] => some (hh, 0, 0)
    | ':' :: r2 =>
      match take2 r2 with
      | none => none
      | some (mi, r3) =>
        match r3 with
        | [] => some (hh, mi, 0)
        | ':' :: r4 =>
          match take2 r4 with
          | none => none
          | some (ss, r5) =>
            match r5 with
            | [] => some (hh, mi, ss)
            | '.' :: r6 =>
              if (r6.length = 3 || r6.length = 6) && r6.all Char.isDigit then
                some (hh, mi, ss)
              else none
            | _ => none
        | _ => none
    | _ => none

/-- The range checks of the `datetime` constructor. -/
def mkDT (y m d hh mi ss : Nat) : Option DT :=
  if 1 ≤ y && y ≤ 9999 && 1 ≤ m && m ≤ 12 && 1 ≤ d && d ≤ daysInMonth y m &&
      hh ≤ 23 && mi ≤ 59 && ss ≤ 59 then
    some ⟨y, m, d, hh, mi, ss⟩
  else none

/-- `datetime.fromisoformat` (Python 3.7-3.10): `YYYY-MM-DD`, optionally
followed by an arbitrary separator character and a time part. -/
def fromisoformat (s : Str) : Option DT :=
  match take4 s with
  | none => none
  | some (y, r1) =>
    match expectChar '-' r1 with
    | none => none
    | some r2 =>
      match take2 r2 with
      | none => none
      | some (m, r3) =>
        match expectChar '-' r3 with
        | none => none
        | some r4 =>
          match take2 r4 with
          | none => none
          | some (d, r5) =>
            match r5 with
            | [] => mkDT y m d 0 0 0
            | _ :: r6 =>
              match parseTimePart r6 with
              | none => none
              | some (hh, mi, ss) => mkDT y m d hh mi ss

/-- `get_correct_timezone` (fix_timezone.py lines 47-75). -/
def get_correct_timezone (date_str : Str) : Str :=
  match fromisoformat (stripTz date_str) with
  | some dt => get_correct_timezone_core dt
  | none => str "+02:00"

example : findLastSunday 2025 3 = some 30 := by decide
example : findLastSunday 2025 10 = some 26 := by decide
example : findLastSunday 2024 10 = some 27 := by decide
example : get_correct_timezone (str "2025-01-15T10:00:00+02:00") = str "+01:00" := by decide
example : get_correct_timezone (str "2025-07-15T10:00:00+02:00") = str "+02:00" := by decide
example : get_correct_timezone (str "garbage") = str "+02:00" := by decide

/-- The claim's notion of "last Sunday of month M": the largest day in [25,31]
whose date falls on a Sunday. -/
def IsLastSunday (y m d : Nat) : Prop :=
  25 ≤ d ∧ d ≤ 31 ∧ pyWeekday (toordinal y m d) = 6 ∧
    ∀ e, 25 ≤ e → e ≤ 31 → pyWeekday (toordinal y m e) = 6 → e ≤ d

theorem toordinal_linear (y m : Nat) : ∀ d : Nat, toordinal y m d = toordinal y m 0 + d := by
  intro d
  unfold toordinal
  omega

theorem findLastSunday_spec (y m : Nat) :
    ∃ d, findLastSunday y m = some d ∧ IsLastSunday y m d := by
  obtain ⟨T, hT⟩ : ∃ T, ∀ d : Nat, toordinal y m d = T + d :=
    ⟨toordinal y m 0, toordinal_linear y m⟩
  unfold findLastSunday IsLastSunday
  simp only [hT, pyWeekday]
  split_ifs with h31 h30 h29 h28 h27 h26 h25
  · exact ⟨31, rfl, by omega, by omega, by omega, fun e h1 h2 h3 => by omega⟩
  · exact ⟨30, rfl, by omega, by omega, by omega, fun e h1 h2 h3 => by omega⟩
  · exact ⟨29, rfl, by omega, by omega, by omega, fun e h1 h2 h3 => by omega⟩
  · exact ⟨28, rfl, by omega, by omega, by omega, fun e h1 h2 h3 => by omega⟩
  · exact ⟨27, rfl, by omega, by omega, by omega, fun e h1 h2 h3 => by omega⟩
  · exact ⟨26, rfl, by omega, by omega, by omega, fun e h1 h2 h3 => by omega⟩
  · exact ⟨25, rfl, by omega, by omega, by omega, fun e h1 h2 h3 => by omega⟩
  · exfalso; omega

theorem IsLastSunday_unique (y m a b : Nat)
    (ha : IsLastSunday y m a) (hb : IsLastSunday y m b) : a = b := by
  obtain ⟨ha1, ha2, ha3, ha4⟩ := ha
  obtain ⟨hb1, hb2, hb3, hb4⟩ := hb
  exact Nat.le_antisymm (hb4 a ha1 ha2 ha3) (ha4 b hb1 hb2 hb3)

/-- The DST condition exactly as the claim words it: the instant lies on or
after the last Sunday of March of its year and strictly before the last Sunday
of October of its year. -/
def ClaimedDST (dt : DT) : Prop :=
  ∃ a b, IsLastSunday dt.y 3 a ∧ IsLastSunday dt.y 10 b ∧
    dtSecs ⟨dt.y, 3, a, 0, 0, 0⟩ ≤ dtSecs dt ∧ dtSecs dt < dtSecs ⟨dt.y, 10, b, 0, 0, 0⟩

/-- C6: the fallback DST rule returns `+02:00` exactly on the instants
satisfying the claim's last-Sunday window, `+01:00` otherwise; in particular
`+01:00` on 2025-01-15 and `+02:00` on 2025-07-15 (string inputs included). -/
theorem C6_dst_rule :
    (∀ dt : DT,
      (get_correct_timezone_core dt = str "+02:00" ↔ ClaimedDST dt) ∧
      (get_correct_timezone_core dt = str "+01:00" ↔ ¬ClaimedDST dt)) ∧
    get_correct_timezone (str "2025-01-15T10:00:00+02:00") = str "+01:00" ∧
    get_correct_timezone (str "2025-07-15T10:00:00+02:00") = str "+02:00" ∧
    get_correct_timezone_core ⟨2025, 1, 15, 0, 0, 0⟩ = str "+01:00" ∧
    get_correct_timezone_core ⟨2025, 7, 15, 0, 0, 0⟩ = str "+02:00" := by
  refine ⟨?_, by decide, by decide, by decide, by decide⟩
  intro dt
  obtain ⟨a, hfa, hla⟩ := findLastSunday_spec dt.y 3
  obtain ⟨b, hfb, hlb⟩ := findLastSunday_spec dt.y 10
  have hdst : get_dst_transition_dates dt.y =
      some (⟨dt.y, 3, a, 0, 0, 0⟩, ⟨dt.y, 10, b, 0, 0, 0⟩) := by
    unfold get_dst_transition_dates
    rw [hfa, hfb]
  have hcore : get_correct_timezone_core dt =
      (if dtSecs ⟨dt.y, 3, a, 0, 0, 0⟩ ≤ dtSecs dt ∧ dtSecs dt < dtSecs ⟨dt.y, 10, b, 0, 0, 0⟩
       then str "+02:00" else str "+01:00") := by
    unfold get_correct_timezone_core
    rw [hdst]
  constructor
  · rw [hcore]
    constructor
    · intro h
      by_cases hc : dtSecs ⟨dt.y, 3, a, 0, 0, 0⟩ ≤ dtSecs dt ∧
          dtSecs dt < dtSecs ⟨dt.y, 10, b, 0, 0, 0⟩
      · exact ⟨a, b, hla, hlb, hc.1, hc.2⟩
      · rw [if_neg hc] at h
        exact absurd h (by decide)
    · rintro ⟨a', b', hla', hlb', h1, h2⟩
      have hea := IsLastSunday_unique dt.y 3 a' a hla' hla
      have heb := IsLastSunday_unique dt.y 10 b' b hlb' hlb
      subst hea
      subst heb
      rw [if_pos ⟨h1, h2⟩]
  · rw [hcore]
    constructor
    · intro h
      rintro ⟨a', b', hla', hlb', h1, h2⟩
      have hea := IsLastSunday_unique dt.y 3 a' a hla' hla
      have heb := IsLastSunday_unique dt.y 10 b' b hlb' hlb
      subst hea
      subst heb
      rw [if_pos ⟨h1, h2⟩] at h
      exact absurd h (by decide)
    · intro h
      by_cases hc : dtSecs ⟨dt.y, 3, a, 0, 0, 0⟩ ≤ dtSecs dt ∧
          dtSecs dt < dtSecs ⟨dt.y, 10, b, 0, 0, 0⟩
      · exact absurd ⟨a, b, hla, hlb, hc.1, hc.2⟩ h
      · rw [if_neg hc]

/-! ## Local-time Event Builder (`create_lesson_event`, lines 448-496) -/

/-- Modelled from the spec: the timezone database attached by the
`ZoneInfo("Europe/Rome")` branch of `create_lesson_event` — the library itself
is not part of the repository — gives the civil UTC offset of the Europe/Rome
DST rule of spec §4.6 at date granularity: `+02:00` from the last Sunday of
March (inclusive) to the last Sunday of October (exclusive), `+01:00`
otherwise. -/
def europeRomeOffset (y m d : Nat) : Str :=
  match findLastSunday y 3, findLastSunday y 10 with
  | some a, some b =>
    if (3 < m ∨ (m = 3 ∧ a ≤ d)) ∧ (m < 10 ∨ (m = 10 ∧ d < b)) then str "+02:00"
    else str "+01:00"
  | _, _ => str "+01:00"

/-- The month-based fallback offset of `create_lesson_event` (lines 474-480),
used when no timezone database is importable: `+02:00` for April..September,
`+01:00` otherwise. -/
def fallbackOffset (month : Nat) : Str :=
  if 4 ≤ month ∧ month ≤ 9 then str "+02:00" else str "+01:00"

/-- A naive local datetime at minute precision (seconds are always zero in the
builder). -/
structure NaiveDT where
  y : Nat
  m : Nat
  d : Nat
  hh : Nat
  mi : Nat
deriving DecidableEq

/-- The calendar successor of a day. -/
def nextDay (y m d : Nat) : Nat × Nat × Nat :=
  if d < daysInMonth y m then (y, m, d + 1)
  else if m < 12 then (y, m + 1, 1)
  else (y + 1, 1, 1)

/-- `date.replace(hour=h, minute=mi, second=0) + timedelta(hours=1)` (source
lines 457-462): the one-hour capture-offset correction, rolling over midnight
when the hour was 23. -/
def combinedPlus1 (y m d hh mi : Nat) : NaiveDT :=
  if hh + 1 ≤ 23 then ⟨y, m, d, hh + 1, mi⟩
  else
    match nextDay y m d with
    | (y2, m2, d2) => ⟨y2, m2, d2, 0, mi⟩

/-- Decimal digit character. -/
def digitChar (n : Nat) : Char := Char.ofNat (48 + n)

/-- Two-digit zero-padded decimal rendering. -/
def pad2 (n : Nat) : Str := [digitChar (n / 10 % 10), digitChar (n % 10)]

/-- Four-digit zero-padded decimal rendering. -/
def pad4 (n : Nat) : Str :=
  [digitChar (n / 1000 % 10), digitChar (n / 100 % 10), digitChar (n / 10 % 10),
   digitChar (n % 10)]

/-- `datetime.isoformat()` of a zoned datetime with zero seconds: the ISO-8601
string with an explicit numeric offset and never a `Z` suffix. -/
def isoRenderN (t : NaiveDT) (off : Str) : Str :=
  pad4 t.y ++ '-' :: (pad2 t.m ++ '-' :: (pad2 t.d ++ 'T' ::
    (pad2 t.hh ++ ':' :: (pad2 t.mi ++ ':' :: (pad2 0 ++ off)))))

/-- The output record of `create_lesson_event` (source lines 485-496). -/
structure Event where
  corso : Option Str
  oidCorso : Option Str
  oidCorsi : Option Str
  anno : Nat
  gruppo : Option Char
  aula : Option Str
  docente : Option Str
  start : Str
  end_ : Str
  note : Option Str
deriving DecidableEq

/-- `create_lesson_event` (lines 448-496), `ZoneInfo` branch: apply the
one-hour correction to both endpoints, attach the Europe/Rome offset of each
corrected instant, and render ISO-8601 strings. -/
def create_lesson_event (corso : Option Str) (anno : Nat) (gruppo : Option Char)
    (aula docente : Option Str) (y m d : Nat) (start_time end_time : Nat × Nat)
    (note : Option Str) : Event :=
  let s := combinedPlus1 y m d start_time.1 start_time.2
  let e := combinedPlus1 y m d end_time.1 end_time.2
  { corso := corso, oidCorso := none, oidCorsi := none, anno := anno,
    gruppo := gruppo, aula := aula, docente := docente,
    start := isoRenderN s (europeRomeOffset s.y s.m s.d),
    end_ := isoRenderN e (europeRomeOffset e.y e.m e.d),
    note := note }

/-- `create_lesson_event`, fallback branch (no timezone database): one
month-based offset computed from the corrected start and used for both
endpoints. -/
def create_lesson_event_fallback (corso : Option Str) (anno : Nat)
    (gruppo : Option Char) (aula docente : Option Str) (y m d : Nat)
    (start_time end_time : Nat × Nat) (note : Option Str) : Event :=
  let s := combinedPlus1 y m d start_time.1 start_time.2
  let e := combinedPlus1 y m d end_time.1 end_time.2
  let off := fallbackOffset s.m
  { corso := corso, oidCorso := none, oidCorsi := none, anno := anno,
    gruppo := gruppo, aula := aula, docente := docente,
    start := isoRenderN s off, end_ := isoRenderN e off, note := note }

example :
    (create_lesson_event (some (str "X")) 1 none none none 2024 11 4 (14, 0) (18, 0)
      none).start = str "2024-11-04T15:00:00+01:00" := by decide
example :
    (create_lesson_event (some (str "X")) 1 none none none 2024 11 4 (14, 0) (18, 0)
      none).end_ = str "2024-11-04T19:00:00+01:00" := by decide
example :
    (create_lesson_event (some (str "X")) 1 none none none 2024 10 7 (14, 0) (18, 0)
      none).start = str "2024-10-07T15:00:00+02:00" := by decide
example :
    (create_lesson_event_fallback (some (str "X")) 1 none none none 2024 10 7 (14, 0)
      (18, 0) none).start = str "2024-10-07T15:00:00+01:00" := by decide

/-! ### Never-Z lemmas for the rendered timestamps -/

theorem digitChar_lt_ne_Z : ∀ k, k < 10 → digitChar k ≠ 'Z' := by decide

theorem Z_not_mem_pad2 (n : Nat) : 'Z' ∉ pad2 n := by
  intro h
  rcases List.mem_cons.mp h with h1 | h1
  · exact digitChar_lt_ne_Z _ (Nat.mod_lt _ (by omega)) h1.symm
  rcases List.mem_cons.mp h1 with h2 | h2
  · exact digitChar_lt_ne_Z _ (Nat.mod_lt _ (by omega)) h2.symm
  · simp at h2

theorem Z_not_mem_pad4 (n : Nat) : 'Z' ∉ pad4 n := by
  intro h
  rcases List.mem_cons.mp h with h1 | h1
  · exact digitChar_lt_ne_Z _ (Nat.mod_lt _ (by omega)) h1.symm
  rcases List.mem_cons.mp h1 with h2 | h2
  · exact digitChar_lt_ne_Z _ (Nat.mod_lt _ (by omega)) h2.symm
  rcases List.mem_cons.mp h2 with h3 | h3
  · exact digitChar_lt_ne_Z _ (Nat.mod_lt _ (by omega)) h3.symm
  rcases List.mem_cons.mp h3 with h4 | h4
  · exact digitChar_lt_ne_Z _ (Nat.mod_lt _ (by omega)) h4.symm
  · simp at h4

theorem europeRomeOffset_cases (y m d : Nat) :
    europeRomeOffset y m d = str "+01:00" ∨ europeRomeOffset y m d = str "+02:00" := by
  unfold europeRomeOffset
  cases findLastSunday y 3 with
  | none => cases findLastSunday y 10 with
    | none => exact Or.inl rfl
    | some b => exact Or.inl rfl
  | some a => cases findLastSunday y 10 with
    | none => exact Or.inl rfl
    | some b =>
      dsimp only
      split_ifs with h
      · exact Or.inr rfl
      · exact Or.inl rfl

theorem Z_not_mem_isoRenderN (t : NaiveDT) (off : Str) (hoff : 'Z' ∉ off) :
    'Z' ∉ isoRenderN t off := by
  intro h
  unfold isoRenderN at h
  rcases List.mem_append.mp h with h | h
  · exact Z_not_mem_pad4 _ h
  rcases List.mem_cons.mp h with h | h
  · exact absurd h (by decide)
  rcases List.mem_append.mp h with h | h
  · exact Z_not_mem_pad2 _ h
  rcases List.mem_cons.mp h with h | h
  · exact absurd h (by decide)
  rcases List.mem_append.mp h with h | h
  · exact Z_not_mem_pad2 _ h
  rcases List.mem_cons.mp h with h | h
  · exact absurd h (by decide)
  rcases List.mem_append.mp h with h | h
  · exact Z_not_mem_pad2 _ h
  rcases List.mem_cons.mp h with h | h
  · exact absurd h (by decide)
  rcases List.mem_append.mp h with h | h
  · exact Z_not_mem_pad2 _ h
  rcases List.mem_cons.mp h with h | h
  · exact absurd h (by decide)
  rcases List.mem_append.mp h with h | h
  · exact Z_not_mem_pad2 _ h
  · exact hoff h

/-- C5: the builder adds exactly one hour to both endpoints (seconds zero)
before attaching the Europe/Rome civil offset of the corrected instant, and
its ISO-8601 outputs carry an explicit numeric offset and never a `Z`; on
2024-11-04 with time range (14,0,18,0) the outputs are exactly
`2024-11-04T15:00:00+01:00` and `2024-11-04T19:00:00+01:00`. -/
theorem C5_event_builder :
    ((create_lesson_event (some (str "X")) 1 none none none 2024 11 4 (14, 0) (18, 0)
        none).start = str "2024-11-04T15:00:00+01:00" ∧
     (create_lesson_event (some (str "X")) 1 none none none 2024 11 4 (14, 0) (18, 0)
        none).end_ = str "2024-11-04T19:00:00+01:00") ∧
    (∀ (corso : Option Str) (anno : Nat) (gruppo : Option Char)
      (aula docente : Option Str) (y m d : Nat) (st et : Nat × Nat) (note : Option Str),
      (create_lesson_event corso anno gruppo aula docente y m d st et note).start =
        isoRenderN (combinedPlus1 y m d st.1 st.2)
          (europeRomeOffset (combinedPlus1 y m d st.1 st.2).y
            (combinedPlus1 y m d st.1 st.2).m (combinedPlus1 y m d st.1 st.2).d) ∧
      (create_lesson_event corso anno gruppo aula docente y m d st et note).end_ =
        isoRenderN (combinedPlus1 y m d et.1 et.2)
          (europeRomeOffset (combinedPlus1 y m d et.1 et.2).y
            (combinedPlus1 y m d et.1 et.2).m (combinedPlus1 y m d et.1 et.2).d) ∧
      'Z' ∉ (create_lesson_event corso anno gruppo aula docente y m d st et note).start ∧
      'Z' ∉ (create_lesson_event corso anno gruppo aula docente y m d st et note).end_) := by
  refine ⟨⟨by decide, by decide⟩, ?_⟩
  intro corso anno gruppo aula docente y m d st et note
  refine ⟨rfl, rfl, ?_, ?_⟩
  · apply Z_not_mem_isoRenderN
    rcases europeRomeOffset_cases (combinedPlus1 y m d st.1 st.2).y
      (combinedPlus1 y m d st.1 st.2).m (combinedPlus1 y m d st.1 st.2).d with h | h <;>
      rw [h] <;> decide
  · apply Z_not_mem_isoRenderN
    rcases europeRomeOffset_cases (combinedPlus1 y m d et.1 et.2).y
      (combinedPlus1 y m d et.1 et.2).m (combinedPlus1 y m d et.1 et.2).d with h | h <;>
      rw [h] <;> decide

/-- C7 counterexample: on 2024-10-07 (before the last Sunday of October) the
timezone-database path gives `+02:00` while the month-based fallback of the
event builder gives `+01:00`; the two code paths build different events. -/
theorem C7_counterexample :
    europeRomeOffset 2024 10 7 = str "+02:00" ∧
    fallbackOffset 10 = str "+01:00" ∧
    (create_lesson_event (some (str "X")) 1 none none none 2024 10 7 (14, 0) (18, 0)
      none).start = str "2024-10-07T15:00:00+02:00" ∧
    (create_lesson_event_fallback (some (str "X")) 1 none none none 2024 10 7 (14, 0)
      (18, 0) none).start = str "2024-10-07T15:00:00+01:00" ∧
    create_lesson_event (some (str "X")) 1 none none none 2024 10 7 (14, 0) (18, 0) none ≠
      create_lesson_event_fallback (some (str "X")) 1 none none none 2024 10 7 (14, 0)
        (18, 0) none := by
  exact ⟨by decide, by decide, by decide, by decide, by decide⟩

/-- C7 amended: the month-based fallback agrees with the Europe/Rome
database rule exactly on the dates outside the two mismatch windows — it
disagrees precisely on March days on/after the last Sunday of March and on
October days before the last Sunday of October, where it returns `+01:00`
against the database's `+02:00`. -/
theorem C7_fallback_agreement (y m d a b : Nat) (hm1 : 1 ≤ m) (hm2 : m ≤ 12)
    (hfa : findLastSunday y 3 = some a) (hfb : findLastSunday y 10 = some b) :
    fallbackOffset m = europeRomeOffset y m d ↔
      ¬(m = 3 ∧ a ≤ d) ∧ ¬(m = 10 ∧ d < b) := by
  unfold fallbackOffset europeRomeOffset
  rw [hfa, hfb]
  dsimp only
  by_cases h3 : m = 3
  · subst h3
    rw [if_neg (by omega)]
    by_cases had : a ≤ d
    · rw [if_pos ⟨Or.inr ⟨rfl, had⟩, Or.inl (by omega)⟩]
      constructor
      · intro h; exact absurd h (by decide)
      · rintro ⟨h1, _⟩; exact absurd ⟨rfl, had⟩ h1
    · rw [if_neg (by rintro ⟨h1 | ⟨_, h2⟩, _⟩ <;> omega)]
      exact ⟨fun _ => ⟨fun h => had h.2, fun h => by omega⟩, fun _ => rfl⟩
  by_cases h10 : m = 10
  · subst h10
    rw [if_neg (by omega)]
    by_cases hdb : d < b
    · rw [if_pos ⟨Or.inl (by omega), Or.inr ⟨rfl, hdb⟩⟩]
      constructor
      · intro h; exact absurd h (by decide)
      · rintro ⟨_, h2⟩; exact absurd ⟨rfl, hdb⟩ h2
    · rw [if_neg (by rintro ⟨_, h1 | ⟨_, h2⟩⟩ <;> omega)]
      exact ⟨fun _ => ⟨fun h => by omega, fun h => hdb h.2⟩, fun _ => rfl⟩
  by_cases h49 : 4 ≤ m ∧ m ≤ 9
  · rw [if_pos h49, if_pos ⟨Or.inl (by omega), Or.inl (by omega)⟩]
    exact ⟨fun _ => ⟨fun h => by omega, fun h => by omega⟩, fun _ => rfl⟩
  · rw [if_neg h49,
      if_neg (by rintro ⟨hA | ⟨hA, _⟩, hB | ⟨hB, _⟩⟩ <;> omega)]
    exact ⟨fun _ => ⟨fun h => h3 h.1, fun h => h10 h.1⟩, fun _ => rfl⟩

/-- Witness for C7's amended theorem on 2025-01-15: a January date on which
the two offset computations agree. -/
theorem C7_fallback_agreement_witness :
    findLastSunday 2025 3 = some 30 ∧ findLastSunday 2025 10 = some 26 ∧
    (fallbackOffset 1 = europeRomeOffset 2025 1 15 ↔
      ¬(1 = 3 ∧ 30 ≤ 15) ∧ ¬(1 = 10 ∧ 15 < 26)) := by
  refine ⟨by decide, by decide, ?_⟩
  exact C7_fallback_agreement 2025 1 15 30 26 (by decide) (by decide) (by decide) (by decide)

/-- C9 counterexample: the Time-range Parser accepts the reversed range
`18.00-14.00`, whose event has start after end; and it accepts `13.00-23.30`,
whose corrected end rolls past midnight so start and end fall on different
civil dates. -/
theorem C9_counterexample :
    parse_time (str "18.00-14.00") = some (18, 0, 14, 0) ∧
    (create_lesson_event (some (str "X")) 1 none none none 2024 11 4 (18, 0) (14, 0)
      none).start = str "2024-11-04T19:00:00+01:00" ∧
    (create_lesson_event (some (str "X")) 1 none none none 2024 11 4 (18, 0) (14, 0)
      none).end_ = str "2024-11-04T15:00:00+01:00" ∧
    combinedPlus1 2024 11 4 18 0 = ⟨2024, 11, 4, 19, 0⟩ ∧
    combinedPlus1 2024 11 4 14 0 = ⟨2024, 11, 4, 15, 0⟩ ∧
    ¬(60 * 19 + 0 < 60 * 15 + 0) ∧
    parse_time (str "13.00-23.30") = some (13, 0, 23, 30) ∧
    (create_lesson_event (some (str "X")) 1 none none none 2024 11 4 (13, 0) (23, 30)
      none).start = str "2024-11-04T14:00:00+01:00" ∧
    (create_lesson_event (some (str "X")) 1 none none none 2024 11 4 (13, 0) (23, 30)
      none).end_ = str "2024-11-05T00:30:00+01:00" := by
  refine ⟨by decide, by decide, by decide, by decide, by decide, by decide, by decide,
    by decide, by decide⟩

/-- C9 amended: the start-before-end and same-civil-date invariants hold for
every accepted time range whose start is before its end (as minutes of day)
and whose end hour is at most 22, so neither corrected endpoint crosses
midnight: both endpoints are rendered on the lesson's date with the same
offset and keep the strict order. -/
theorem C9_start_lt_end_amended (corso : Option Str) (anno : Nat) (gruppo : Option Char)
    (aula docente : Option Str) (y m d h1 mi1 h2 mi2 : Nat) (note : Option Str)
    (hb : h2 ≤ 22) (hm2 : mi2 ≤ 59) (hlt : 60 * h1 + mi1 < 60 * h2 + mi2) :
    (create_lesson_event corso anno gruppo aula docente y m d (h1, mi1) (h2, mi2)
      note).start = isoRenderN ⟨y, m, d, h1 + 1, mi1⟩ (europeRomeOffset y m d) ∧
    (create_lesson_event corso anno gruppo aula docente y m d (h1, mi1) (h2, mi2)
      note).end_ = isoRenderN ⟨y, m, d, h2 + 1, mi2⟩ (europeRomeOffset y m d) ∧
    60 * (h1 + 1) + mi1 < 60 * (h2 + 1) + mi2 := by
  have hh1 : h1 ≤ 22 := by omega
  have hs : combinedPlus1 y m d h1 mi1 = ⟨y, m, d, h1 + 1, mi1⟩ := by
    unfold combinedPlus1
    rw [if_pos (by omega : h1 + 1 ≤ 23)]
  have he : combinedPlus1 y m d h2 mi2 = ⟨y, m, d, h2 + 1, mi2⟩ := by
    unfold combinedPlus1
    rw [if_pos (by omega : h2 + 1 ≤ 23)]
  refine ⟨?_, ?_, by omega⟩
  · show isoRenderN (combinedPlus1 y m d h1 mi1)
      (europeRomeOffset (combinedPlus1 y m d h1 mi1).y (combinedPlus1 y m d h1 mi1).m
        (combinedPlus1 y m d h1 mi1).d) = _
    rw [hs]
  · show isoRenderN (combinedPlus1 y m d h2 mi2)
      (europeRomeOffset (combinedPlus1 y m d h2 mi2).y (combinedPlus1 y m d h2 mi2).m
        (combinedPlus1 y m d h2 mi2).d) = _
    rw [he]

/-- Witness for C9's amended theorem at the in-range lesson 14:00-18:00 on
2024-11-04. -/
theorem C9_start_lt_end_witness :
    (18 : Nat) ≤ 22 ∧ 60 * 14 + 0 < 60 * 18 + 0 ∧
    (create_lesson_event (some (str "X")) 1 none none none 2024 11 4 (14, 0) (18, 0)
      none).start = isoRenderN ⟨2024, 11, 4, 15, 0⟩ (europeRomeOffset 2024 11 4) := by
  refine ⟨by decide, by decide, ?_⟩
  exact (C9_start_lt_end_amended (some (str "X")) 1 none none none 2024 11 4 14 0 18 0
    none (by decide) (by decide) (by decide)).1

/-! ## Table/Header Locator (`extract_lessons_from_pdf` lines 332-352, claim C8) -/

/-- The six fixed weekday tokens (source line 314). -/
def day_names : List Str :=
  [str "LUNEDI", str "MARTEDI", str "MERCOLEDI", str "GIOVEDI", str "VENERDI",
   str "SABATO"]

/-- Python `str(cell)` for a table cell. -/
def pyStrCell : Option Str → Str
  | none => str "None"
  | some s => s

/-- Header-row test (source line 335): the row is truthy and some weekday token
occurs in `str(row).upper()`.  An all-letter token occurs in the row's repr
exactly when it occurs in some cell's upper-cased text, since it cannot span
the repr's quote/comma/bracket separators, so the test is taken per cell. -/
def rowHasDay (row : List (Option Str)) : Bool :=
  !row.isEmpty &&
    day_names.any (fun dn => row.any (fun c => containsSub (upperS (pyStrCell c)) dn))

/-- The header-row search (source lines 333-337): index of the first row
passing `rowHasDay`. -/
def findHeaderRow : List (List (Option Str)) → Option Nat
  | [] => none
  | row :: t =>
    if rowHasDay row then some 0
    else (findHeaderRow t).map (· + 1)

/-- The first weekday token found in one cell's upper-cased text (the inner
`for day_name in day_names: ... break` of source lines 349-352). -/
def firstDayIn (cellU : Str) : Option Str :=
  day_names.find? (fun dn => containsSub cellU dn)

/-- Python-dict assignment `day_columns[day_name] = col_idx`: replace the
entry in place, or append a new one. -/
def setAssoc (m : List (Str × Nat)) (k : Str) (v : Nat) : List (Str × Nat) :=
  match m with
  | [] => [(k, v)]
  | (k0, v0) :: t => if k0 = k then (k0, v) :: t else (k0, v0) :: setAssoc t k v

/-- Dict lookup. -/
def lookupA (m : List (Str × Nat)) (k : Str) : Option Nat :=
  (m.find? (fun p => p.1 = k)).map (·.2)

/-- The column-assignment loop of source lines 345-352: every truthy cell is
assigned to at most one weekday (the first token of `day_names` it contains),
and the assignment overwrites any earlier column for that weekday. -/
def day_columns_loop : Nat → List (Option Str) → List (Str × Nat) → List (Str × Nat)
  | _, [], acc => acc
  | i, c :: rest, acc =>
    match c with
    | none => day_columns_loop (i + 1) rest acc
    | some s =>
      if s.isEmpty then day_columns_loop (i + 1) rest acc
      else
        match firstDayIn (upperS s) with
        | some dn => day_columns_loop (i + 1) rest (setAssoc acc dn i)
        | none => day_columns_loop (i + 1) rest acc

/-- `day_columns` built from a header row. -/
def day_columns (header : List (Option Str)) : List (Str × Nat) :=
  day_columns_loop 0 header []

/-- The column the claim assigns to a token: the first cell, left to right,
containing it. -/
def claimedColumn (header : List (Option Str)) (dn : Str) : Option Nat :=
  header.findIdx? (fun c => containsSub (upperS (pyStrCell c)) dn)

/-- The weekday a truthy cell is assigned to, if any. -/
def cellAssigns (c : Option Str) : Option Str :=
  match c with
  | none => none
  | some s => if s.isEmpty then none else firstDayIn (upperS s)

/-- The last (largest) index at or after `i` whose cell is assigned to the
token — the amended claim's column choice. -/
def lastAssignedFrom (i : Nat) : List (Option Str) → Str → Option Nat
  | [], _ => none
  | c :: t, dn =>
    match lastAssignedFrom (i + 1) t dn with
    | some j => some j
    | none => if cellAssigns c = some dn then some i else none

/-- C8 counterexample: with two cells both containing `LUNEDI` the source
assigns the second column (the dict write overwrites), not the first as the
claim says; and in a cell containing both `LUNEDI` and `MARTEDI` the inner
`break` prevents any assignment for `MARTEDI`, though the claim assigns it
that cell. -/
theorem C8_counterexample :
    lookupA (day_columns [some (str "LUNEDI"), some (str "LUNEDI")]) (str "LUNEDI")
      = some 1 ∧
    claimedColumn [some (str "LUNEDI"), some (str "LUNEDI")] (str "LUNEDI") = some 0 ∧
    lookupA (day_columns [some (str "LUNEDI MARTEDI")]) (str "MARTEDI") = none ∧
    claimedColumn [some (str "LUNEDI MARTEDI")] (str "MARTEDI") = some 0 := by
  exact ⟨by decide, by decide, by decide, by decide⟩

theorem lookupA_cons (k0 : Str) (v0 : Nat) (t : List (Str × Nat)) (k' : Str) :
    lookupA ((k0, v0) :: t) k' = if k0 = k' then some v0 else lookupA t k' := by
  by_cases h : k0 = k'
  · subst h
    simp [lookupA, List.find?]
  · simp [lookupA, List.find?, h]

theorem lookupA_setAssoc (acc : List (Str × Nat)) (k k' : Str) (v : Nat) :
    lookupA (setAssoc acc k v) k' = if k' = k then some v else lookupA acc k' := by
  induction acc with
  | nil =>
    rw [show setAssoc [] k v = [(k, v)] from rfl, lookupA_cons]
    by_cases h : k = k'
    · rw [if_pos h, if_pos h.symm]
    · rw [if_neg h, if_neg (fun e : k' = k => h e.symm)]
  | cons p t ih =>
    obtain ⟨k0, v0⟩ := p
    by_cases h0 : k0 = k
    · subst h0
      rw [show setAssoc ((k0, v0) :: t) k0 v = (k0, v) :: t from by
        unfold setAssoc; rw [if_pos rfl], lookupA_cons, lookupA_cons]
      by_cases h : k0 = k'
      · subst h
        rw [if_pos rfl, if_pos rfl]
      · rw [if_neg h, if_neg h, if_neg (fun e : k' = k0 => h e.symm)]
    · rw [show setAssoc ((k0, v0) :: t) k v = (k0, v0) :: setAssoc t k v from by
        unfold setAssoc; rw [if_neg h0]; cases t <;> rfl, lookupA_cons, lookupA_cons]
      by_cases h1 : k0 = k'
      · rw [if_pos h1, if_pos h1, if_neg (fun e : k' = k => h0 (h1.trans e))]
      · rw [if_neg h1, if_neg h1, ih]

theorem day_columns_loop_lookup (dn : Str) :
    ∀ (cells : List (Option Str)) (i : Nat) (acc : List (Str × Nat)),
      lookupA (day_columns_loop i cells acc) dn =
        match lastAssignedFrom i cells dn with
        | some j => some j
        | none => lookupA acc dn := by
  intro cells
  induction cells with
  | nil => intro i acc; rfl
  | cons c t ih =>
    intro i acc
    have hLA : lastAssignedFrom i (c :: t) dn =
        (match lastAssignedFrom (i + 1) t dn with
         | some j => some j
         | none => if cellAssigns c = some dn then some i else none) := rfl
    cases c with
    | none =>
      rw [show day_columns_loop i (none :: t) acc = day_columns_loop (i + 1) t acc
          from rfl, ih (i + 1) acc, hLA]
      cases lastAssignedFrom (i + 1) t dn with
      | some j => rfl
      | none => simp [cellAssigns]
    | some s =>
      have hstep : day_columns_loop i (some s :: t) acc =
          (if s.isEmpty then day_columns_loop (i + 1) t acc
           else
            match firstDayIn (upperS s) with
            | some dn0 => day_columns_loop (i + 1) t (setAssoc acc dn0 i)
            | none => day_columns_loop (i + 1) t acc) := rfl
      by_cases hse : s.isEmpty = true
      · rw [hstep, if_pos hse, ih (i + 1) acc, hLA]
        cases lastAssignedFrom (i + 1) t dn with
        | some j => rfl
        | none => simp [cellAssigns, hse]
      · have hse2 : s.isEmpty = false := by revert hse; cases s.isEmpty <;> simp
        rw [hstep, if_neg hse, hLA]
        cases hfd : firstDayIn (upperS s) with
        | none =>
          rw [ih (i + 1) acc]
          cases lastAssignedFrom (i + 1) t dn with
          | some j => rfl
          | none => simp [cellAssigns, hse2, hfd]
        | some dn0 =>
          rw [ih (i + 1) (setAssoc acc dn0 i)]
          cases lastAssignedFrom (i + 1) t dn with
          | some j => rfl
          | none =>
            have hca : cellAssigns (some s) = some dn0 := by
              simp [cellAssigns, hse2, hfd]
            rw [hca, lookupA_setAssoc acc dn0 dn i]
            by_cases hdd : dn = dn0
            · subst hdd
              rw [if_pos rfl, if_pos rfl]
            · rw [if_neg hdd, if_neg (fun e : some dn0 = some dn =>
                hdd (Option.some.inj e).symm)]

theorem findHeaderRow_spec (table : List (List (Option Str))) :
    ∀ i, findHeaderRow table = some i →
      ∃ row, table.get? i = some row ∧ rowHasDay row = true ∧
        ∀ j, j < i → ∀ row', table.get? j = some row' → rowHasDay row' = false := by
  induction table with
  | nil => intro i h; simp [findHeaderRow] at h
  | cons row t ih =>
    intro i h
    unfold findHeaderRow at h
    by_cases hr : rowHasDay row = true
    · rw [if_pos hr] at h
      cases h
      exact ⟨row, rfl, hr, fun j hj row' hj' => absurd hj (by omega)⟩
    · rw [if_neg hr] at h
      cases hfi : findHeaderRow t with
      | none => rw [hfi] at h; simp at h
      | some i0 =>
        rw [hfi] at h
        rw [show Option.map (· + 1) (some i0) = some (i0 + 1) from rfl] at h
        obtain ⟨row0, hg, hd, hprev⟩ := ih i0 hfi
        cases h
        refine ⟨row0, hg, hd, ?_⟩
        intro j hj row' hj'
        cases j with
        | zero =>
          simp only [List.get?] at hj'
          cases hj'
          revert hr
          cases rowHasDay row <;> simp
        | succ j0 =>
          exact hprev j0 (by omega) row' hj'

/-- C8 amended: the header row is, as the claim states, the first row
containing a weekday token; but each truthy cell is assigned to at most one
weekday — the first token of the fixed list it contains — and a weekday's
column is the LAST cell so assigned to it (later dict writes overwrite
earlier ones), not the first cell containing the token. -/
theorem C8_header_and_columns :
    (∀ (table : List (List (Option Str))) (i : Nat), findHeaderRow table = some i →
      ∃ row, table.get? i = some row ∧ rowHasDay row = true ∧
        ∀ j, j < i → ∀ row', table.get? j = some row' → rowHasDay row' = false) ∧
    (∀ (header : List (Option Str)) (dn : Str),
      lookupA (day_columns header) dn = lastAssignedFrom 0 header dn) := by
  constructor
  · exact fun table => findHeaderRow_spec table
  · intro header dn
    rw [show day_columns header = day_columns_loop 0 header [] from rfl,
      day_columns_loop_lookup dn header 0 []]
    cases lastAssignedFrom 0 header dn with
    | some j => rfl
    | none => rfl

/-- Witness for C8's amended theorem: a concrete two-row table whose second
row is the header, and a duplicated-token header resolved to the last cell. -/
theorem C8_header_and_columns_witness :
    findHeaderRow [[some (str "ORARIO")], [some (str "LUNEDI"), some (str "LUNEDI")]]
      = some 1 ∧
    (∃ row, [[some (str "ORARIO")], [some (str "LUNEDI"), some (str "LUNEDI")]].get? 1
        = some row ∧ rowHasDay row = true ∧
      ∀ j, j < 1 →
        ∀ row', [[some (str "ORARIO")], [some (str "LUNEDI"), some (str "LUNEDI")]].get? j
          = some row' → rowHasDay row' = false) ∧
    lookupA (day_columns [some (str "LUNEDI"), some (str "LUNEDI")]) (str "LUNEDI") =
      lastAssignedFrom 0 [some (str "LUNEDI"), some (str "LUNEDI")] (str "LUNEDI") := by
  refine ⟨by decide, ?_, ?_⟩
  · exact C8_header_and_columns.1
      [[some (str "ORARIO")], [some (str "LUNEDI"), some (str "LUNEDI")]] 1 (by decide)
  · exact C8_header_and_columns.2 [some (str "LUNEDI"), some (str "LUNEDI")] (str "LUNEDI")

/-! ## Timezone fixing of stored events (`fix_timezone_in_event`, claim C10) -/

/-- An event record as read from the JSON files (`start`/`end` may be null). -/
structure JEvent where
  corso : Option Str
  oidCorso : Option Str
  oidCorsi : Option Str
  anno : Nat
  gruppo : Option Char
  aula : Option Str
  docente : Option Str
  start : Option Str
  end_ : Option Str
  note : Option Str
deriving DecidableEq

/-- Python `s.replace(pat, rep)`: replace every non-overlapping occurrence,
left to right.  The fuel is bounded by the string length; every step consumes
at least one character because the only pattern used, `+02:00`, is
non-empty. -/
def replaceAllAux (pat rep : Str) : Nat → Str → Str
  | 0, s => s
  | fuel + 1, s =>
    match s with
    | [] => []
    | c :: t =>
      if pat.isPrefixOf (c :: t) then
        rep ++ replaceAllAux pat rep fuel ((c :: t).drop pat.length)
      else c :: replaceAllAux pat rep fuel t

/-- `str.replace` with its adequate fuel. -/
def replaceAll (s pat rep : Str) : Str := replaceAllAux pat rep s.length s

/-- The literal `+02:00`. -/
def plus0200 : Str := str "+02:00"

/-- `fix_timezone_in_event` (fix_timezone.py lines 77-95): copy the event;
when `start` is truthy and contains `+02:00`, replace every `+02:00` in it by
the recomputed offset; the same for `end`; all other fields are carried over
unchanged. -/
def fix_timezone_in_event (e : JEvent) : JEvent :=
  let newStart :=
    match e.start with
    | some s =>
      if !s.isEmpty && containsSub s plus0200 then
        some (replaceAll s plus0200 (get_correct_timezone s))
      else e.start
    | none => e.start
  let newEnd :=
    match e.end_ with
    | some s =>
      if !s.isEmpty && containsSub s plus0200 then
        some (replaceAll s plus0200 (get_correct_timezone s))
      else e.end_
    | none => e.end_
  { e with start := newStart, end_ := newEnd }

example :
    fix_timezone_in_event
      ⟨some (str "X"), none, none, 1, none, none, none,
       some (str "2025-01-15T10:00:00+02:00"), some (str "2025-07-15T18:00:00+02:00"),
       none⟩ =
    ⟨some (str "X"), none, none, 1, none, none, none,
     some (str "2025-01-15T10:00:00+01:00"), some (str "2025-07-15T18:00:00+02:00"),
     none⟩ := by decide

theorem containsSub_nil_plus0200 : containsSub [] plus0200 = false := by decide

/-- C10: the timezone-fixing step rewrites only `start` and `end`, and those
only when the existing string contains `+02:00` (each occurrence replaced by
the recomputed offset); a `start` or `end` without that substring — `+01:00`
forms, `Z` suffixes, anything else — and every other field are returned
unchanged. -/
theorem C10_fix_timezone_frame :
    ∀ e : JEvent,
      ((fix_timezone_in_event e).corso = e.corso ∧
       (fix_timezone_in_event e).oidCorso = e.oidCorso ∧
       (fix_timezone_in_event e).oidCorsi = e.oidCorsi ∧
       (fix_timezone_in_event e).anno = e.anno ∧
       (fix_timezone_in_event e).gruppo = e.gruppo ∧
       (fix_timezone_in_event e).aula = e.aula ∧
       (fix_timezone_in_event e).docente = e.docente ∧
       (fix_timezone_in_event e).note = e.note) ∧
      (∀ s : Str, e.start = some s → containsSub s plus0200 = true →
        (fix_timezone_in_event e).start =
          some (replaceAll s plus0200 (get_correct_timezone s))) ∧
      (∀ s : Str, e.start = some s → containsSub s plus0200 = false →
        (fix_timezone_in_event e).start = some s) ∧
      (e.start = none → (fix_timezone_in_event e).start = none) ∧
      (∀ s : Str, e.end_ = some s → containsSub s plus0200 = true →
        (fix_timezone_in_event e).end_ =
          some (replaceAll s plus0200 (get_correct_timezone s))) ∧
      (∀ s : Str, e.end_ = some s → containsSub s plus0200 = false →
        (fix_timezone_in_event e).end_ = some s) ∧
      (e.end_ = none → (fix_timezone_in_event e).end_ = none) := by
  intro e
  have hne : ∀ s : Str, containsSub s plus0200 = true → s.isEmpty = false := by
    intro s hs
    cases s with
    | nil => rw [containsSub_nil_plus0200] at hs; cases hs
    | cons a t => rfl
  refine ⟨⟨rfl, rfl, rfl, rfl, rfl, rfl, rfl, rfl⟩, ?_, ?_, ?_, ?_, ?_, ?_⟩
  · intro s hs hc
    simp only [fix_timezone_in_event, hs, hne s hc, hc, Bool.not_false, Bool.and_self,
      if_true]
  · intro s hs hc
    simp only [fix_timezone_in_event, hs, hc, Bool.and_false, Bool.false_eq_true,
      if_false]
  · intro hs
    simp only [fix_timezone_in_event, hs]
  · intro s hs hc
    simp only [fix_timezone_in_event, hs, hne s hc, hc, Bool.not_false, Bool.and_self,
      if_true]
  · intro s hs hc
    simp only [fix_timezone_in_event, hs, hc, Bool.and_false, Bool.false_eq_true,
      if_false]
  · intro hs
    simp only [fix_timezone_in_event, hs]

/-- Witness for C10 at a concrete winter event: the `+02:00` in `start` is
rewritten to the recomputed `+01:00`, and a `start` with no `+02:00` is
untouched. -/
theorem C10_fix_timezone_frame_witness :
    (⟨some (str "X"), none, none, 1, none, none, none,
      some (str "2025-01-15T10:00:00+02:00"), none, none⟩ : JEvent).start
      = some (str "2025-01-15T10:00:00+02:00") ∧
    containsSub (str "2025-01-15T10:00:00+02:00") plus0200 = true ∧
    (fix_timezone_in_event
      ⟨some (str "X"), none, none, 1, none, none, none,
       some (str "2025-01-15T10:00:00+02:00"), none, none⟩).start =
      some (replaceAll (str "2025-01-15T10:00:00+02:00") plus0200
        (get_correct_timezone (str "2025-01-15T10:00:00+02:00"))) := by
  refine ⟨rfl, by decide, ?_⟩
  exact (C10_fix_timezone_frame
    ⟨some (str "X"), none, none, 1, none, none, none,
     some (str "2025-01-15T10:00:00+02:00"), none, none⟩).2.1
    (str "2025-01-15T10:00:00+02:00") rfl (by decide)
